import Mathlib

/-!
Verification of the SSE re-streaming / tool-call-accumulation core of the
`online-cs-backend` worker (`src/index.ts`, primary revision).

The embedding models decoded text as `List Char` (the worker operates on
text decoded by `TextDecoder`; byte-level UTF-8 reassembly across chunk
boundaries is a platform primitive of `TextDecoder` in streaming mode and
is outside the repository's code).  JavaScript runtime values produced by
`JSON.parse` are modelled by the inductive `Json`; `undefined` is modelled
as `Option.none` wherever a property lookup can miss.  JSON numbers are
modelled as integers: every numeric literal appearing in the program and
in the claims under verification is an integer.
-/

namespace OnlineCS

/-- Decoded text, one JavaScript string character per entry. -/
abbrev Chars := List Char

/-- Whitespace stripped by `String.prototype.trim` (the characters of that
set reachable in this development: ASCII blanks, NBSP and the BOM). -/
def isTrimChar (c : Char) : Bool :=
  c = ' ' || c = '\t' || c = '\n' || c = '\r' ||
  c = '\x0b' || c = '\x0c' || c = ' ' || c = '﻿'

/-- `s.trim()`: strip trim-whitespace from both ends. -/
def jsTrim (s : Chars) : Chars :=
  ((s.dropWhile isTrimChar).reverse.dropWhile isTrimChar).reverse

/-- `s.split('\n')`: split on newline, keeping empty segments; the result
is always nonempty (`''.split('\n')` is `['']`). -/
def splitNl : Chars → List Chars
  | [] => [[]]
  | c :: cs =>
    if c = '\n' then [] :: splitNl cs
    else
      match splitNl cs with
      | [] => [[c]]
      | l :: ls => (c :: l) :: ls

theorem splitNl_ne_nil (s : Chars) : splitNl s ≠ [] := by
  induction s with
  | nil => simp [splitNl]
  | cons c cs ih =>
    simp only [splitNl]
    split
    · simp
    · match h : splitNl cs with
      | [] => simp
      | l :: ls => simp

/-- JavaScript runtime values that `JSON.parse` can produce.  Object
fields are kept in insertion order with duplicate keys already collapsed
(last value wins, first position kept), matching `JSON.parse`. -/
inductive Json where
  | null
  | bool (b : Bool)
  | num (n : Int)
  | str (s : Chars)
  | arr (elems : List Json)
  | obj (fields : List (Chars × Json))
  deriving Repr

/-- JSON whitespace accepted between tokens by `JSON.parse`. -/
def isJsonWs (c : Char) : Bool :=
  c = ' ' || c = '\t' || c = '\n' || c = '\r'

def skipWs : Chars → Chars
  | [] => []
  | c :: cs => if isJsonWs c then skipWs cs else c :: cs

/-- Record a parsed object member the way `JSON.parse` builds objects:
a repeated key replaces the earlier value in place. -/
def objInsert (k : Chars) (v : Json) : List (Chars × Json) → List (Chars × Json)
  | [] => [(k, v)]
  | (k', v') :: rest =>
    if k' = k then (k', v) :: rest else (k', v') :: objInsert k v rest

def isDigit (c : Char) : Bool := '0' ≤ c && c ≤ '9'

def digitsToNat (acc : Nat) : Chars → Nat
  | [] => acc
  | c :: cs => digitsToNat (acc * 10 + (c.toNat - '0'.toNat)) cs

/-- Parse a JSON number (modelled restriction: integer part only,
`-?(0|[1-9][0-9]*)`, leading zeros rejected as `JSON.parse` does). -/
def parseNum : Chars → Option (Int × Chars)
  | '-' :: cs =>
    match parseNum cs with
    | some (n, rest) => if n ≥ 0 then some (-n, rest) else none
    | none => none
  | c :: cs =>
    if isDigit c then
      let ds := cs.takeWhile isDigit
      let rest := cs.dropWhile isDigit
      if c = '0' ∧ ds ≠ [] then none
      else some (Int.ofNat (digitsToNat (c.toNat - '0'.toNat) ds), rest)
    else none
  | [] => none

def hexVal (c : Char) : Option Nat :=
  if isDigit c then some (c.toNat - '0'.toNat)
  else if 'a' ≤ c ∧ c ≤ 'f' then some (c.toNat - 'a'.toNat + 10)
  else if 'A' ≤ c ∧ c ≤ 'F' then some (c.toNat - 'A'.toNat + 10)
  else none

/-- Decode one escape sequence after a backslash: the decoded character
and the remaining input, or `none` for an invalid escape. -/
def decodeEscape : Chars → Option (Char × Chars)
  | '"' :: rest => some ('"', rest)
  | '\\' :: rest => some ('\\', rest)
  | '/' :: rest => some ('/', rest)
  | 'b' :: rest => some ('\x08', rest)
  | 'f' :: rest => some ('\x0c', rest)
  | 'n' :: rest => some ('\n', rest)
  | 'r' :: rest => some ('\r', rest)
  | 't' :: rest => some ('\t', rest)
  | 'u' :: h1 :: h2 :: h3 :: h4 :: rest =>
    (match hexVal h1, hexVal h2, hexVal h3, hexVal h4 with
     | some a, some b, some c, some d =>
       some (Char.ofNat (((a * 16 + b) * 16 + c) * 16 + d), rest)
     | _, _, _, _ => none)
  | _ => none

/-- Parse the body of a JSON string after the opening quote, returning the
decoded characters and the input after the closing quote (fuelled; each
step consumes at least one character). -/
def parseStringBodyF : Nat → Chars → Option (Chars × Chars)
  | 0, _ => none
  | _ + 1, [] => none
  | _ + 1, '"' :: rest => some ([], rest)
  | fuel + 1, '\\' :: rest =>
    (match decodeEscape rest with
     | some (c, rest') =>
       (match parseStringBodyF fuel rest' with
        | some (s, r) => some (c :: s, r)
        | none => none)
     | none => none)
  | fuel + 1, c :: rest =>
    if c.toNat < 32 then none
    else
      match parseStringBodyF fuel rest with
      | some (s, r) => some (c :: s, r)
      | none => none

def parseStringBody (cs : Chars) : Option (Chars × Chars) :=
  parseStringBodyF (cs.length + 1) cs

mutual

/-- Recursive-descent JSON value parser (fuelled; each recursive call
consumes at least one character, so fuel `length + 1` always suffices). -/
def parseValue : Nat → Chars → Option (Json × Chars)
  | 0, _ => none
  | fuel + 1, cs =>
    match skipWs cs with
    | '{' :: rest =>
      (match skipWs rest with
       | '}' :: rest' => some (.obj [], rest')
       | other => parseMembers fuel other [])
    | '[' :: rest =>
      (match skipWs rest with
       | ']' :: rest' => some (.arr [], rest')
       | other => parseElems fuel other [])
    | '"' :: rest =>
      (match parseStringBody rest with
       | some (s, r) => some (.str s, r)
       | none => none)
    | 't' :: 'r' :: 'u' :: 'e' :: rest => some (.bool true, rest)
    | 'f' :: 'a' :: 'l' :: 's' :: 'e' :: rest => some (.bool false, rest)
    | 'n' :: 'u' :: 'l' :: 'l' :: rest => some (.null, rest)
    | other =>
      (match parseNum other with
       | some (n, rest) => some (.num n, rest)
       | none => none)

/-- Parse `"key": value (, "key": value)* }` inside an object. -/
def parseMembers : Nat → Chars → List (Chars × Json) → Option (Json × Chars)
  | 0, _, _ => none
  | fuel + 1, cs, acc =>
    match skipWs cs with
    | '"' :: rest =>
      (match parseStringBody rest with
       | some (k, r) =>
         (match skipWs r with
          | ':' :: r' =>
            (match parseValue fuel r' with
             | some (v, r'') =>
               (match skipWs r'' with
                | ',' :: r3 => parseMembers fuel r3 (objInsert k v acc)
                | '}' :: r3 => some (.obj (objInsert k v acc), r3)
                | _ => none)
             | none => none)
          | _ => none)
       | none => none)
    | _ => none

/-- Parse `value (, value)* ]` inside an array. -/
def parseElems : Nat → Chars → List Json → Option (Json × Chars)
  | 0, _, _ => none
  | fuel + 1, cs, acc =>
    match parseValue fuel cs with
    | some (v, r) =>
      (match skipWs r with
       | ',' :: r' => parseElems fuel r' (acc ++ [v])
       | ']' :: r' => some (.arr (acc ++ [v]), r')
       | _ => none)
    | none => none

end

/-- `JSON.parse` on a string: parse one value and require only whitespace
after it; `none` models a thrown `SyntaxError`. -/
def Json.parse (s : Chars) : Option Json :=
  match parseValue (s.length + 1) s with
  | some (v, rest) => if skipWs rest = [] then some v else none
  | none => none

/-! ### JavaScript value semantics used by the worker -/

/-- JavaScript truthiness of a possibly-`undefined` value. -/
def truthy : Option Json → Bool
  | none => false
  | some .null => false
  | some (.bool b) => b
  | some (.num n) => decide (n ≠ 0)
  | some (.str s) => decide (s ≠ [])
  | some (.arr _) => true
  | some (.obj _) => true

def lookupField : List (Chars × Json) → Chars → Option Json
  | [], _ => none
  | (k, v) :: rest, key => if k = key then some v else lookupField rest key

/-- A canonical array-index property key: digits without a leading zero,
below `2^32 - 1`. -/
def canonIndex (s : Chars) : Option Nat :=
  if s ≠ [] ∧ s.all isDigit ∧ (s.head? = some '0' → s = ['0']) then
    let n := digitsToNat 0 s
    if n < 4294967295 then some n else none
  else none

/-- Property read `v[key]` on a defined, non-`null` value: `none` is
JavaScript `undefined`.  Strings expose their characters at index keys;
methods and `length` are not consulted by the worker. -/
def jsGet : Json → Chars → Option Json
  | .obj fs, key => lookupField fs key
  | .arr xs, key =>
    (match canonIndex key with
     | some i => xs.get? i
     | none => none)
  | .str s, key =>
    (match canonIndex key with
     | some i => (s.get? i).map (fun c => .str [c])
     | none => none)
  | _, _ => none

/-- Numeric index read `v[i]` (JavaScript coerces the key to a string). -/
def jsIndex (j : Json) (i : Nat) : Option Json :=
  jsGet j ((toString i).data)

/-- Property access on a possibly-`undefined`/`null` base: reading a
property of `undefined` or `null` throws a `TypeError` (`Except.error`). -/
def jsAccess : Option Json → Chars → Except Unit (Option Json)
  | none, _ => .error ()
  | some .null, _ => .error ()
  | some j, key => .ok (jsGet j key)

/-- Two-step property access `v[k1][k2]` with `TypeError` propagation. -/
def jsAccess2 (v : Option Json) (k1 k2 : Chars) : Except Unit (Option Json) := do
  jsAccess (← jsAccess v k1) k2

mutual

/-- JavaScript string coercion `String(v)` (template-literal rendering). -/
def jsToString : Json → Chars
  | .null => ('n' :: 'u' :: 'l' :: 'l' :: [])
  | .bool true => ('t' :: 'r' :: 'u' :: 'e' :: [])
  | .bool false => ('f' :: 'a' :: 'l' :: 's' :: 'e' :: [])
  | .num n => (toString n).data
  | .str s => s
  | .arr xs => jsArrJoin xs
  | .obj _ => ("[object Object]".data)

/-- `Array.prototype.toString`: comma-join, `null` elements rendered empty. -/
def jsArrJoin : List Json → Chars
  | [] => []
  | x :: xs =>
    let hd : Chars :=
      match x with
      | .null => []
      | y => jsToString y
    match xs with
    | [] => hd
    | _ => hd ++ ',' :: jsArrJoin xs

end

def insertIdxEntry (x : Nat × (Chars × Json)) :
    List (Nat × (Chars × Json)) → List (Nat × (Chars × Json))
  | [] => [x]
  | y :: ys => if x.1 < y.1 then x :: y :: ys else y :: insertIdxEntry x ys

def sortIdxEntries : List (Nat × (Chars × Json)) → List (Nat × (Chars × Json))
  | [] => []
  | x :: xs => insertIdxEntry x (sortIdxEntries xs)

/-- `Object.entries(v)`: `none` models the `TypeError` thrown on `null`.
Own enumerable string-keyed properties, array-index keys first in
ascending numeric order, then the rest in insertion order. -/
def jsEntries : Json → Option (List (Chars × Json))
  | .null => none
  | .obj fs =>
    let idx := fs.filterMap (fun kv => (canonIndex kv.1).map (fun n => (n, kv)))
    some ((sortIdxEntries idx).map (fun p => p.2) ++
          fs.filter (fun kv => canonIndex kv.1 = none))
  | .arr xs => some (xs.enum.map (fun p => ((toString p.1).data, p.2)))
  | .str s => some (s.enum.map (fun p => ((toString p.1).data, Json.str [p.2])))
  | _ => some []

/-! ### `JSON.stringify` for the output chunk shape -/

def hexDigit (n : Nat) : Char :=
  if n < 10 then Char.ofNat ('0'.toNat + n) else Char.ofNat ('a'.toNat + n - 10)

def escapeChar (c : Char) : Chars :=
  if c = '"' then ('\\' :: '"' :: [])
  else if c = '\\' then ('\\' :: '\\' :: [])
  else if c = '\x08' then ('\\' :: 'b' :: [])
  else if c = '\t' then ('\\' :: 't' :: [])
  else if c = '\n' then ('\\' :: 'n' :: [])
  else if c = '\x0c' then ('\\' :: 'f' :: [])
  else if c = '\r' then ('\\' :: 'r' :: [])
  else if c.toNat < 32 then
    ('\\' :: 'u' :: '0' :: '0' :: hexDigit (c.toNat / 16) :: hexDigit (c.toNat % 16) :: [])
  else [c]

def quoteStr (s : Chars) : Chars := '"' :: (s.flatMap escapeChar) ++ ['"']

mutual

def jsonStringify : Json → Chars
  | .null => ('n' :: 'u' :: 'l' :: 'l' :: [])
  | .bool true => ('t' :: 'r' :: 'u' :: 'e' :: [])
  | .bool false => ('f' :: 'a' :: 'l' :: 's' :: 'e' :: [])
  | .num n => (toString n).data
  | .str s => quoteStr s
  | .arr xs => '[' :: stringifyElems xs ++ [']']
  | .obj fs => '\x7b' :: stringifyFields fs ++ ['\x7d']

def stringifyElems : List Json → Chars
  | [] => []
  | x :: xs =>
    match xs with
    | [] => jsonStringify x
    | _ => jsonStringify x ++ ',' :: stringifyElems xs

def stringifyFields : List (Chars × Json) → Chars
  | [] => []
  | (k, v) :: fs =>
    match fs with
    | [] => quoteStr k ++ ':' :: jsonStringify v
    | _ => quoteStr k ++ ':' :: jsonStringify v ++ ',' :: stringifyFields fs

end

/-! ### Departments and dispatch (src/index.ts lines 5-34, 124-133) -/

/-- The three department backends. -/
inductive DeptKey where
  | sports
  | electronics
  | travel
  deriving DecidableEq, Repr

def kId : Chars := ('i' :: 'd' :: [])
def kObject : Chars := ("object".data)
def kCreated : Chars := ("created".data)
def kModel : Chars := ("model".data)
def kChoices : Chars := ("choices".data)
def kDelta : Chars := ("delta".data)
def kContent : Chars := ("content".data)
def kToolCalls : Chars := ("tool_calls".data)
def kFunction : Chars := ("function".data)
def kArguments : Chars := ("arguments".data)
def kName : Chars := ("name".data)
def kIndex : Chars := ("index".data)
def kFinishReason : Chars := ("finish_reason".data)
def kCustomerQuery : Chars := ("customerQuery".data)
def kMessages : Chars := ("messages".data)

/-- `getDepartmentKey` (lines 5-12): fixed function-name-to-credential map,
`null` (`none`) for unknown names.  The credential key
`LANGBASE_*_PIPE_API_KEY` is modelled by the department it selects. -/
def getDepartmentKey (functionName : Chars) : Option DeptKey :=
  if functionName = ("call_sports_dept".data) then some .sports
  else if functionName = ("call_electronics_dept".data) then some .electronics
  else if functionName = ("call_travel_dept".data) then some .travel
  else none

/-- Outcome of the HTTP POST a department backend answers with: a JSON
body whose `completion` field is the payload string, or a non-OK status. -/
inductive DeptResult where
  | ok (completion : Chars)
  | httpError (status : Nat) (statusText : Chars)

/-- One request's department backends, abstracted: endpoint and bearer
credential are determined by the key, so a backend's reply is a function
of the key and the `customerQuery` value sent to it.  (The `env` and
`threadId` arguments of the source function select the credential and are
constant across one request.) -/
def DeptOracle := DeptKey → Option Json → DeptResult

/-- `callDepartment` (lines 14-34): performs the POST and throws
`Error: {status} {statusText}` when the response is not OK; on success
the parsed body's `completion` payload is returned. -/
def callDepartment (d : DeptOracle) (k : DeptKey) (q : Option Json) : Except Unit Chars :=
  match d k q with
  | .ok completion => .ok completion
  | .httpError _ _ => .error ()

/-- `formatDepartmentResponse` (lines 124-133): parse the completion
payload optimistically and render its first `Object.entries` pair as
`{key} {value}`; any throw (parse failure, `entries` of `null`,
destructuring an absent first entry) falls back to the raw string. -/
def formatDepartmentResponse (response : Chars) : Chars :=
  match Json.parse response with
  | none => response
  | some v =>
    match jsEntries v with
    | none => response
    | some [] => response
    | some ((k, val) :: _) => k ++ ' ' :: jsToString val

/-! ### Output events (src/index.ts lines 73-75, 113-122) -/

/-- One string enqueued on the output stream controller, kept in the
structured shape the code builds just before `JSON.stringify`: the
`[DONE]` sentinel or a content chunk with its envelope fields. -/
inductive OutEvent where
  | done
  | chunk (id object created model : Option Json) (content : Json)
  deriving Repr

/-- A field of the chunk object literal; `JSON.stringify` omits
properties whose value is `undefined`. -/
def optField (k : Chars) : Option Json → List (Chars × Json)
  | none => []
  | some v => [(k, v)]

/-- The object literal built by `enqueueContentChunk` (lines 114-120). -/
def chunkJson (id object created model : Option Json) (content : Json) : Json :=
  .obj (optField kId id ++ optField kObject object ++
        optField kCreated created ++ optField kModel model ++
        [(kChoices, .arr [.obj [(kIndex, .num 0),
                                (kDelta, .obj [(kContent, content)]),
                                (kFinishReason, .null)]])])

/-- The exact text each output event puts on the wire. -/
def OutEvent.wire : OutEvent → Chars
  | .done => ("data: [DONE]\n\n".data)
  | .chunk id object created model content =>
    ("data: ".data) ++ jsonStringify (chunkJson id object created model content) ++
      ('\n' :: '\n' :: [])

/-- `enqueueContentChunk` (lines 113-122): envelope copied from the
triggering upstream event, except `object`, which this revision fixes to
the literal `chat.completion.chunk`. -/
def enqueueContentChunk (data : Json) (content : Json) : OutEvent :=
  .chunk (jsGet data kId) (some (.str ("chat.completion.chunk".data)))
    (jsGet data kCreated) (jsGet data kModel) content

/-- `enqueueContentChunk` of the hybrid revision
(src/unnamed/part_001 lines 149-158): `object` is copied from the
upstream event like the other envelope fields. -/
def enqueueContentChunkHybrid (data : Json) (content : Json) : OutEvent :=
  .chunk (jsGet data kId) (jsGet data kObject)
    (jsGet data kCreated) (jsGet data kModel) content

/-! ### The tool-call accumulator and `processLine`
(src/index.ts lines 36-111) -/

/-- The orchestrator's mutable accumulator: `accumulatedToolCall` (the raw
first tool-call fragment value, `none` for `null`/`undefined`) and
`accumulatedArguments`.  The arguments buffer is modelled as text; a
truthy non-string `function.arguments` value — impossible in the upstream
chunk protocol — is modelled by its string coercion. -/
structure AccState where
  toolCall : Option Json
  args : Chars
  deriving Repr

/-- The value stored into the arguments buffer for one fragment:
`delta.tool_calls[0].function.arguments || ''`. -/
def argStr (a : Option Json) : Chars :=
  if truthy a then jsToString (a.getD .null) else []

/-- What one processed line produces: enqueued output events, the
department dispatches attempted (`callDepartment` invocations with the
key and `customerQuery` value), and the accumulator handed back. -/
structure LineResult where
  outs : List OutEvent
  log : List (DeptKey × Option Json)
  state : AccState
  deriving Repr

/-- Lines 94-104: the completion check after a fragment was folded into
the accumulator `st`: when `accumulatedToolCall.function.name` is truthy
and the buffer ends with a closing brace, resolve the call.  Any throw
(name access on a malformed fragment, `JSON.parse` failure on the buffer,
`customerQuery` read on a `null` argument object, non-OK department
reply) is caught by the enclosing handler, which keeps the state the
locals held at the throw — in particular the reset to idle on lines
102-103 is skipped. -/
def finishToolCall (d : DeptOracle) (data : Json) (st : AccState) : LineResult :=
  match jsAccess2 st.toolCall kFunction kName with
  | .error _ => ⟨[], [], st⟩
  | .ok nameV =>
    if truthy nameV ∧ st.args.getLast? = some '\x7d' then
      match getDepartmentKey (jsToString (nameV.getD .null)) with
      | none => ⟨[], [], ⟨none, []⟩⟩
      | some k =>
        match Json.parse st.args with
        | none => ⟨[], [], st⟩
        | some argsJson =>
          match jsAccess (some argsJson) kCustomerQuery with
          | .error _ => ⟨[], [], st⟩
          | .ok q =>
            match callDepartment d k q with
            | .error _ => ⟨[], [(k, q)], st⟩
            | .ok completion =>
              ⟨[enqueueContentChunk data (.str (formatDepartmentResponse completion))],
               [(k, q)], ⟨none, []⟩⟩
    else ⟨[], [], st⟩

/-- Lines 79-110: the body of `processLine` after a `data: ` line parsed
to `data`.  Early returns model the caught throws of the `try` block. -/
def processData (d : DeptOracle) (data : Json) (st : AccState) : LineResult :=
  let choices := jsGet data kChoices
  if ¬ truthy choices then ⟨[], [], st⟩
  else
    match choices with
    | none => ⟨[], [], st⟩
    | some cv =>
      match jsAccess (jsIndex cv 0) kDelta with
      | .error _ => ⟨[], [], st⟩
      | .ok delta =>
        if ¬ truthy delta then ⟨[], [], st⟩
        else
          match delta with
          | none => ⟨[], [], st⟩
          | some dv =>
            let content := jsGet dv kContent
            if truthy content then
              ⟨[enqueueContentChunk data (content.getD .null)], [], st⟩
            else
              let toolCalls := jsGet dv kToolCalls
              if ¬ truthy toolCalls then ⟨[], [], st⟩
              else
                match toolCalls with
                | none => ⟨[], [], st⟩
                | some tcv =>
                  let tc := jsIndex tcv 0
                  if ¬ truthy st.toolCall then
                    match jsAccess2 tc kFunction kArguments with
                    | .error _ => ⟨[], [], ⟨tc, st.args⟩⟩
                    | .ok a => finishToolCall d data ⟨tc, argStr a⟩
                  else
                    match jsAccess2 tc kFunction kArguments with
                    | .error _ => ⟨[], [], st⟩
                    | .ok a => finishToolCall d data ⟨st.toolCall, st.args ++ argStr a⟩

/-- `processLine` (lines 65-111): forward the `[DONE]` sentinel verbatim,
drop lines without the `data: ` marker, otherwise parse the payload and
run the delta logic; a parse throw is caught and the line is dropped. -/
def processLine (d : DeptOracle) (line : Chars) (st : AccState) : LineResult :=
  if jsTrim line = ("data: [DONE]".data) then ⟨[.done], [], st⟩
  else if ¬ (("data: ".data).isPrefixOf line) then ⟨[], [], st⟩
  else
    match Json.parse (line.drop 6) with
    | none => ⟨[], [], st⟩
    | some data => processData d data st

/-- Fold `processLine` over a sequence of complete lines, concatenating
outputs and dispatch log and threading the accumulator. -/
def runLines (d : DeptOracle) : List Chars → AccState → LineResult
  | [], st => ⟨[], [], st⟩
  | l :: ls, st =>
    let r := processLine d l st
    let rest := runLines d ls r.state
    ⟨r.outs ++ rest.outs, r.log ++ rest.log, rest.state⟩

/-! ### The read loop (src/index.ts lines 43-62) -/

/-- One turn of the carry-over buffer (lines 50-52): append the decoded
chunk, split on newline, keep the last (possibly incomplete) segment as
the new buffer and hand the complete lines on. -/
def feedChunk : (List Chars × Chars) → Chars → (List Chars × Chars)
  | (ls, buf), c =>
    let parts := splitNl (buf ++ c)
    (ls ++ parts.dropLast, parts.getLastD [])

/-- The SSE frame parser: all complete lines yielded for a chunked
delivery, with the final carry-over buffer. -/
def linesOfChunks (chunks : List Chars) : List Chars × Chars :=
  chunks.foldl feedChunk ([], [])

/-- The read loop of `processMainChatbotResponse`, one decoded chunk per
read: split off complete lines, process each, carry the rest; at end of
stream the loop exits and closes the controller, discarding the final
carry-over buffer unprocessed. -/
def runChunks (d : DeptOracle) : List Chars → Chars → AccState → LineResult
  | [], _, st => ⟨[], [], st⟩
  | c :: cs, buf, st =>
    let parts := splitNl (buf ++ c)
    let r := runLines d parts.dropLast st
    let rest := runChunks d cs (parts.getLastD []) r.state
    ⟨r.outs ++ rest.outs, r.log ++ rest.log, rest.state⟩

/-- `processMainChatbotResponse` (lines 36-63): the whole re-streaming
pass over one upstream response delivered as decoded chunks, started
with an idle accumulator and an empty carry-over buffer. -/
def processMainChatbotResponse (d : DeptOracle) (chunks : List Chars) : LineResult :=
  runChunks d chunks [] ⟨none, []⟩

/-! ### Request validation (src/index.ts lines 150-196) -/

/-- How far the fetch handler gets before reaching the upstream call;
`upstreamCall` records the validated messages array — any earlier outcome
makes no upstream or department call. -/
inductive HandlerResult where
  | corsPreflight
  | methodNotAllowed
  | badRequest (errMsg : Chars)
  | upstreamCall (messages : List Json)
  deriving Repr

/-- The message of the validation error thrown on lines 181-183. -/
def invalidMessagesMsg : Chars := ("Invalid or empty messages array".data)

/-- Stand-in for the engine-specific `SyntaxError` message produced when
`request.json()` rejects (line 177). -/
def bodyParseErrorMsg : Chars := ("Unexpected token in JSON".data)

/-- Stand-in for the engine-specific `TypeError` message produced by
reading `.messages` of a `null` body. -/
def nullBodyMsg : Chars := ("Cannot read properties of null".data)

/-- The `fetch` handler (lines 150-219) up to the upstream call: method
gate, body parse, and the `messages` validation of lines 174-193.  The
request body is the result of `request.json()` (`none` when it threw). -/
def handleFetch (method : Chars) (body : Option Json) : HandlerResult :=
  if method = ("OPTIONS".data) then .corsPreflight
  else if method ≠ ("POST".data) then .methodNotAllowed
  else
    match body with
    | none => .badRequest bodyParseErrorMsg
    | some .null => .badRequest nullBodyMsg
    | some b =>
      let msgs := jsGet b kMessages
      if ¬ truthy msgs then .badRequest invalidMessagesMsg
      else
        match msgs with
        | some (.arr []) => .badRequest invalidMessagesMsg
        | some (.arr ms) => .upstreamCall ms
        | _ => .badRequest invalidMessagesMsg

/-! ### Event constructors and concrete oracles used in the statements -/

/-- The `tool_calls[0]` object of a tool-call delta: a `function` record
with an optional `name` and an `arguments` text fragment. -/
def toolCallObj (name : Option Chars) (a : Chars) : Json :=
  .obj [(kFunction, .obj
    ((match name with | some n => [(kName, .str n)] | none => []) ++ [(kArguments, .str a)]))]

/-- A full upstream tool-call delta event carrying one fragment. -/
def toolFragJson (name : Option Chars) (a : Chars) : Json :=
  .obj [(kChoices, .arr [.obj [(kDelta, .obj [(kToolCalls, .arr [toolCallObj name a])])]])]

/-- An upstream content delta event with a full envelope. -/
def contentEventJson (idv object : Chars) (created : Int) (model : Chars)
    (content : Chars) : Json :=
  .obj [(kId, .str idv), (kObject, .str object), (kCreated, .num created),
        (kModel, .str model),
        (kChoices, .arr [.obj [(kDelta, .obj [(kContent, .str content)])]])]

/-- The SSE line carrying a JSON event. -/
def lineOf (j : Json) : Chars := ("data: ".data) ++ jsonStringify j

/-- The sentinel line. -/
def doneLine : Chars := ("data: [DONE]".data)

/-- A department oracle whose backends always answer 503. -/
def dFail503 : DeptOracle := fun _ _ => .httpError 503 ("Service Unavailable".data)

/-- A department oracle whose backends always answer OK with the ticket
payload of the specification's round-trip example. -/
def dOkTicket : DeptOracle := fun _ _ =>
  .ok ("\x7b\"Ticket No.\": 42, \"Classification\": \"sports\"\x7d".data)

/-- The idle accumulator the read loop starts from. -/
def idleAcc : AccState := ⟨none, []⟩

/-- Fold `processData` over a sequence of already-parsed upstream events:
the per-event core that `runLines` runs after line framing and parsing. -/
def runDeltas (d : DeptOracle) : List Json → AccState → LineResult
  | [], st => ⟨[], [], st⟩
  | j :: js, st =>
    let r := processData d j st
    let rest := runDeltas d js r.state
    ⟨r.outs ++ rest.outs, r.log ++ rest.log, rest.state⟩

/-- A non-OK department result. -/
def DeptResult.isErr : DeptResult → Bool
  | .ok _ => false
  | .httpError _ _ => true

/-! ### Computation lemmas for the accumulator step -/

theorem argStr_str (a : Chars) : argStr (some (.str a)) = a := by
  by_cases h : a = [] <;> simp [argStr, truthy, jsToString, h]

theorem truthy_toolCallObj (nm : Option Chars) (a : Chars) :
    truthy (some (toolCallObj nm a)) = true := by
  simp [truthy, toolCallObj]

theorem nameOf_toolCallObj_some (n a : Chars) :
    jsAccess2 (some (toolCallObj (some n) a)) kFunction kName = .ok (some (.str n)) := rfl

theorem nameOf_toolCallObj_none (a : Chars) :
    jsAccess2 (some (toolCallObj none a)) kFunction kName = .ok none := rfl

/-- The two tool-call branches of lines 86-92: a fragment starts the
accumulator when none is truthy, otherwise its arguments are appended,
and the completion check of lines 94-104 runs on the result. -/
theorem processData_toolFrag (d : DeptOracle) (nm : Option Chars) (a : Chars) (st : AccState) :
    processData d (toolFragJson nm a) st =
      if truthy st.toolCall then
        finishToolCall d (toolFragJson nm a) ⟨st.toolCall, st.args ++ a⟩
      else
        finishToolCall d (toolFragJson nm a) ⟨some (toolCallObj nm a), a⟩ := by
  cases nm with
  | none =>
    rw [show processData d (toolFragJson none a) st =
      (if ¬ truthy st.toolCall then
        finishToolCall d (toolFragJson none a) ⟨some (toolCallObj none a), argStr (some (.str a))⟩
      else
        finishToolCall d (toolFragJson none a) ⟨st.toolCall, st.args ++ argStr (some (.str a))⟩)
      from rfl]
    rw [argStr_str]
    by_cases h : truthy st.toolCall <;> simp [h]
  | some n =>
    rw [show processData d (toolFragJson (some n) a) st =
      (if ¬ truthy st.toolCall then
        finishToolCall d (toolFragJson (some n) a)
          ⟨some (toolCallObj (some n) a), argStr (some (.str a))⟩
      else
        finishToolCall d (toolFragJson (some n) a)
          ⟨st.toolCall, st.args ++ argStr (some (.str a))⟩)
      from rfl]
    rw [argStr_str]
    by_cases h : truthy st.toolCall <;> simp [h]

theorem finishToolCall_notTruthyName (d : DeptOracle) (data : Json) (st : AccState)
    (nameV : Option Json) (h : jsAccess2 st.toolCall kFunction kName = .ok nameV)
    (hn : truthy nameV = false) : finishToolCall d data st = ⟨[], [], st⟩ := by
  rw [finishToolCall, h]
  simp [hn]

theorem finishToolCall_noBrace (d : DeptOracle) (data : Json) (st : AccState)
    (h : st.args.getLast? ≠ some '\x7d') : finishToolCall d data st = ⟨[], [], st⟩ := by
  rw [finishToolCall]
  cases jsAccess2 st.toolCall kFunction kName with
  | error e => rfl
  | ok nameV => simp [h]

theorem finishToolCall_unknownName (d : DeptOracle) (data : Json) (st : AccState)
    (nameV : Option Json) (h : jsAccess2 st.toolCall kFunction kName = .ok nameV)
    (hn : truthy nameV = true) (hb : st.args.getLast? = some '\x7d')
    (hk : getDepartmentKey (jsToString (nameV.getD .null)) = none) :
    finishToolCall d data st = ⟨[], [], ⟨none, []⟩⟩ := by
  rw [finishToolCall, h]
  simp [hn, hb, hk]

theorem finishToolCall_parseFail (d : DeptOracle) (data : Json) (st : AccState)
    (nameV : Option Json) (k : DeptKey) (h : jsAccess2 st.toolCall kFunction kName = .ok nameV)
    (hn : truthy nameV = true) (hb : st.args.getLast? = some '\x7d')
    (hk : getDepartmentKey (jsToString (nameV.getD .null)) = some k)
    (hp : Json.parse st.args = none) : finishToolCall d data st = ⟨[], [], st⟩ := by
  rw [finishToolCall, h]
  simp [hn, hb, hk, hp]

theorem finishToolCall_nameError (d : DeptOracle) (data : Json) (st : AccState) (e : Unit)
    (h : jsAccess2 st.toolCall kFunction kName = .error e) :
    finishToolCall d data st = ⟨[], [], st⟩ := by
  rw [finishToolCall, h]

theorem jsAccess_some_ne_null (j : Json) (key : Chars) (h : j ≠ .null) :
    jsAccess (some j) key = .ok (jsGet j key) := by
  cases j <;> simp_all [jsAccess]

theorem finishToolCall_nullArgs (d : DeptOracle) (data : Json) (st : AccState)
    (nameV : Option Json) (k : DeptKey)
    (h : jsAccess2 st.toolCall kFunction kName = .ok nameV)
    (hn : truthy nameV = true) (hb : st.args.getLast? = some '\x7d')
    (hk : getDepartmentKey (jsToString (nameV.getD .null)) = some k)
    (hp : Json.parse st.args = some .null) :
    finishToolCall d data st = ⟨[], [], st⟩ := by
  rw [finishToolCall, h]
  simp [hn, hb, hk, hp, jsAccess]

theorem finishToolCall_deptFail (d : DeptOracle) (data : Json) (st : AccState)
    (nameV : Option Json) (k : DeptKey) (aj : Json)
    (status : Nat) (statusText : Chars)
    (h : jsAccess2 st.toolCall kFunction kName = .ok nameV)
    (hn : truthy nameV = true) (hb : st.args.getLast? = some '\x7d')
    (hk : getDepartmentKey (jsToString (nameV.getD .null)) = some k)
    (hp : Json.parse st.args = some aj) (haj : aj ≠ .null)
    (hd : d k (jsGet aj kCustomerQuery) = .httpError status statusText) :
    finishToolCall d data st = ⟨[], [(k, jsGet aj kCustomerQuery)], st⟩ := by
  rw [finishToolCall, h]
  simp [hn, hb, hk, hp, jsAccess_some_ne_null aj kCustomerQuery haj, callDepartment, hd]

theorem finishToolCall_deptOk (d : DeptOracle) (data : Json) (st : AccState)
    (nameV : Option Json) (k : DeptKey) (aj : Json) (completion : Chars)
    (h : jsAccess2 st.toolCall kFunction kName = .ok nameV)
    (hn : truthy nameV = true) (hb : st.args.getLast? = some '\x7d')
    (hk : getDepartmentKey (jsToString (nameV.getD .null)) = some k)
    (hp : Json.parse st.args = some aj) (haj : aj ≠ .null)
    (hd : d k (jsGet aj kCustomerQuery) = .ok completion) :
    finishToolCall d data st =
      ⟨[enqueueContentChunk data (.str (formatDepartmentResponse completion))],
       [(k, jsGet aj kCustomerQuery)], ⟨none, []⟩⟩ := by
  rw [finishToolCall, h]
  simp [hn, hb, hk, hp, jsAccess_some_ne_null aj kCustomerQuery haj, callDepartment, hd]

/-- The outputs and dispatch log of the completion check depend on the
triggering event only through its envelope fields and on the accumulator
only through the stored name and the buffer. -/
theorem finishToolCall_congr (d : DeptOracle) (dataA dataB : Json) (stA stB : AccState)
    (hname : jsAccess2 stA.toolCall kFunction kName = jsAccess2 stB.toolCall kFunction kName)
    (hargs : stA.args = stB.args)
    (hid : jsGet dataA kId = jsGet dataB kId)
    (hcr : jsGet dataA kCreated = jsGet dataB kCreated)
    (hmo : jsGet dataA kModel = jsGet dataB kModel) :
    (finishToolCall d dataA stA).outs = (finishToolCall d dataB stB).outs ∧
      (finishToolCall d dataA stA).log = (finishToolCall d dataB stB).log := by
  cases h : jsAccess2 stB.toolCall kFunction kName with
  | error e =>
    rw [finishToolCall_nameError d dataA stA e (hname.trans h),
      finishToolCall_nameError d dataB stB e h]
    exact ⟨rfl, rfl⟩
  | ok nameV =>
    have hA : jsAccess2 stA.toolCall kFunction kName = .ok nameV := hname.trans h
    by_cases hn : truthy nameV = true
    · by_cases hb : List.getLast? stB.args = some '\x7d'
      · cases hk : getDepartmentKey (jsToString (nameV.getD .null)) with
        | none =>
          rw [finishToolCall_unknownName d dataA stA nameV hA hn (hargs ▸ hb) hk,
            finishToolCall_unknownName d dataB stB nameV h hn hb hk]
          exact ⟨rfl, rfl⟩
        | some k =>
          cases hp : Json.parse stB.args with
          | none =>
            rw [finishToolCall_parseFail d dataA stA nameV k hA hn (hargs ▸ hb) hk (hargs ▸ hp),
              finishToolCall_parseFail d dataB stB nameV k h hn hb hk hp]
            exact ⟨rfl, rfl⟩
          | some aj =>
            by_cases haj : aj = .null
            · subst haj
              rw [finishToolCall_nullArgs d dataA stA nameV k hA hn (hargs ▸ hb) hk (hargs ▸ hp),
                finishToolCall_nullArgs d dataB stB nameV k h hn hb hk hp]
              exact ⟨rfl, rfl⟩
            · cases hd : d k (jsGet aj kCustomerQuery) with
              | ok completion =>
                rw [finishToolCall_deptOk d dataA stA nameV k aj completion hA hn (hargs ▸ hb)
                    hk (hargs ▸ hp) haj hd,
                  finishToolCall_deptOk d dataB stB nameV k aj completion h hn hb hk hp haj hd]
                exact ⟨by simp [enqueueContentChunk, hid, hcr, hmo], rfl⟩
              | httpError status statusText =>
                rw [finishToolCall_deptFail d dataA stA nameV k aj status statusText hA hn
                    (hargs ▸ hb) hk (hargs ▸ hp) haj hd,
                  finishToolCall_deptFail d dataB stB nameV k aj status statusText h hn hb hk hp
                    haj hd]
                exact ⟨rfl, rfl⟩
      · rw [finishToolCall_noBrace d dataA stA (hargs ▸ hb), finishToolCall_noBrace d dataB stB hb]
        exact ⟨rfl, rfl⟩
    · rw [finishToolCall_notTruthyName d dataA stA nameV hA (Bool.not_eq_true _ ▸ hn),
        finishToolCall_notTruthyName d dataB stB nameV h (Bool.not_eq_true _ ▸ hn)]
      exact ⟨rfl, rfl⟩

/-- The completion check emits nothing when the stored name is not a
known department's function name. -/
theorem finishToolCall_unknown_quiet (d : DeptOracle) (data : Json) (st : AccState)
    (nameV : Option Json) (h : jsAccess2 st.toolCall kFunction kName = .ok nameV)
    (hk : getDepartmentKey (jsToString (nameV.getD .null)) = none) :
    (finishToolCall d data st).outs = [] ∧ (finishToolCall d data st).log = [] := by
  by_cases hn : truthy nameV = true
  · by_cases hb : st.args.getLast? = some '\x7d'
    · rw [finishToolCall_unknownName d data st nameV h hn hb hk]
      exact ⟨rfl, rfl⟩
    · rw [finishToolCall_noBrace d data st hb]
      exact ⟨rfl, rfl⟩
  · rw [finishToolCall_notTruthyName d data st nameV h (Bool.not_eq_true _ ▸ hn)]
    exact ⟨rfl, rfl⟩

/-- The completion check's result depends on the triggering event only
through its envelope fields. -/
theorem finishToolCall_data_congr (d : DeptOracle) (dataA dataB : Json) (st : AccState)
    (hid : jsGet dataA kId = jsGet dataB kId)
    (hcr : jsGet dataA kCreated = jsGet dataB kCreated)
    (hmo : jsGet dataA kModel = jsGet dataB kModel) :
    finishToolCall d dataA st = finishToolCall d dataB st := by
  cases h : jsAccess2 st.toolCall kFunction kName with
  | error e =>
    rw [finishToolCall_nameError d dataA st e h, finishToolCall_nameError d dataB st e h]
  | ok nameV =>
    by_cases hn : truthy nameV = true
    · by_cases hb : List.getLast? st.args = some '\x7d'
      · cases hk : getDepartmentKey (jsToString (nameV.getD .null)) with
        | none =>
          rw [finishToolCall_unknownName d dataA st nameV h hn hb hk,
            finishToolCall_unknownName d dataB st nameV h hn hb hk]
        | some k =>
          cases hp : Json.parse st.args with
          | none =>
            rw [finishToolCall_parseFail d dataA st nameV k h hn hb hk hp,
              finishToolCall_parseFail d dataB st nameV k h hn hb hk hp]
          | some aj =>
            by_cases haj : aj = .null
            · subst haj
              rw [finishToolCall_nullArgs d dataA st nameV k h hn hb hk hp,
                finishToolCall_nullArgs d dataB st nameV k h hn hb hk hp]
            · cases hd : d k (jsGet aj kCustomerQuery) with
              | ok completion =>
                rw [finishToolCall_deptOk d dataA st nameV k aj completion h hn hb hk hp haj hd,
                  finishToolCall_deptOk d dataB st nameV k aj completion h hn hb hk hp haj hd]
                simp [enqueueContentChunk, hid, hcr, hmo]
              | httpError status statusText =>
                rw [finishToolCall_deptFail d dataA st nameV k aj status statusText h hn hb hk hp
                    haj hd,
                  finishToolCall_deptFail d dataB st nameV k aj status statusText h hn hb hk hp
                    haj hd]
      · rw [finishToolCall_noBrace d dataA st hb, finishToolCall_noBrace d dataB st hb]
    · rw [finishToolCall_notTruthyName d dataA st nameV h (Bool.not_eq_true _ ▸ hn),
        finishToolCall_notTruthyName d dataB st nameV h (Bool.not_eq_true _ ▸ hn)]

/-- Every event the completion check can emit is a content chunk stamped
with the triggering event's envelope. -/
theorem finishToolCall_outs_shape (d : DeptOracle) (data : Json) (st : AccState) :
    (finishToolCall d data st).outs = [] ∨
      ∃ c, (finishToolCall d data st).outs = [enqueueContentChunk data c] := by
  cases h : jsAccess2 st.toolCall kFunction kName with
  | error e => rw [finishToolCall_nameError d data st e h]; exact Or.inl rfl
  | ok nameV =>
    by_cases hn : truthy nameV = true
    · by_cases hb : List.getLast? st.args = some '\x7d'
      · cases hk : getDepartmentKey (jsToString (nameV.getD .null)) with
        | none =>
          rw [finishToolCall_unknownName d data st nameV h hn hb hk]; exact Or.inl rfl
        | some k =>
          cases hp : Json.parse st.args with
          | none => rw [finishToolCall_parseFail d data st nameV k h hn hb hk hp]; exact Or.inl rfl
          | some aj =>
            by_cases haj : aj = .null
            · subst haj
              rw [finishToolCall_nullArgs d data st nameV k h hn hb hk hp]; exact Or.inl rfl
            · cases hd : d k (jsGet aj kCustomerQuery) with
              | ok completion =>
                rw [finishToolCall_deptOk d data st nameV k aj completion h hn hb hk hp haj hd]
                exact Or.inr ⟨_, rfl⟩
              | httpError status statusText =>
                rw [finishToolCall_deptFail d data st nameV k aj status statusText h hn hb hk hp
                    haj hd]
                exact Or.inl rfl
      · rw [finishToolCall_noBrace d data st hb]; exact Or.inl rfl
    · rw [finishToolCall_notTruthyName d data st nameV h (Bool.not_eq_true _ ▸ hn)]
      exact Or.inl rfl

/-- Every event `processData` emits is a content chunk stamped with the
envelope of the event that triggered it. -/
theorem processData_outs_shape (d : DeptOracle) (data : Json) (st : AccState) :
    (processData d data st).outs = [] ∨
      ∃ c, (processData d data st).outs = [enqueueContentChunk data c] := by
  rw [processData]
  dsimp only
  split
  · exact Or.inl rfl
  · split
    · exact Or.inl rfl
    · split
      · exact Or.inl rfl
      · split
        · exact Or.inl rfl
        · split
          · exact Or.inl rfl
          · split
            · exact Or.inr ⟨_, rfl⟩
            · split
              · exact Or.inl rfl
              · split
                · exact Or.inl rfl
                · split
                  · split
                    · exact Or.inl rfl
                    · exact finishToolCall_outs_shape d data _
                  · split
                    · exact Or.inl rfl
                    · exact finishToolCall_outs_shape d data _

/-! ### Folding lemmas for line and event sequences -/

theorem runLines_nil (d : DeptOracle) (st : AccState) : runLines d [] st = ⟨[], [], st⟩ := rfl

theorem runLines_cons (d : DeptOracle) (l : Chars) (ls : List Chars) (st : AccState) :
    runLines d (l :: ls) st =
      ⟨(processLine d l st).outs ++ (runLines d ls (processLine d l st).state).outs,
       (processLine d l st).log ++ (runLines d ls (processLine d l st).state).log,
       (runLines d ls (processLine d l st).state).state⟩ := rfl

theorem runLines_append (d : DeptOracle) (xs ys : List Chars) (st : AccState) :
    runLines d (xs ++ ys) st =
      ⟨(runLines d xs st).outs ++ (runLines d ys (runLines d xs st).state).outs,
       (runLines d xs st).log ++ (runLines d ys (runLines d xs st).state).log,
       (runLines d ys (runLines d xs st).state).state⟩ := by
  induction xs generalizing st with
  | nil => simp [runLines]
  | cons x xs ih => simp [runLines_cons, List.cons_append, ih]

theorem runDeltas_cons (d : DeptOracle) (j : Json) (js : List Json) (st : AccState) :
    runDeltas d (j :: js) st =
      ⟨(processData d j st).outs ++ (runDeltas d js (processData d j st).state).outs,
       (processData d j st).log ++ (runDeltas d js (processData d j st).state).log,
       (runDeltas d js (processData d j st).state).state⟩ := rfl

/-- A sentinel line enqueues exactly the `[DONE]` event and leaves
everything else untouched. -/
theorem processLine_sentinel (d : DeptOracle) (line : Chars) (st : AccState)
    (h : jsTrim line = ("data: [DONE]".data)) :
    processLine d line st = ⟨[.done], [], st⟩ := by
  rw [processLine]
  simp [h]

/-! ### Absorption lemmas: fragments without a name never dispatch -/

/-- Once the stored tool call has no truthy `function.name`, further
nameless fragments only grow the buffer: nothing is emitted, nothing is
dispatched, and the stored tool call is never replaced. -/
theorem runDeltas_nameless_acc (d : DeptOracle) (as : List Chars) (st : AccState)
    (nameV : Option Json)
    (h : jsAccess2 st.toolCall kFunction kName = .ok nameV)
    (hn : truthy nameV = false) (htc : truthy st.toolCall = true) :
    (runDeltas d (as.map (toolFragJson none)) st).outs = [] ∧
      (runDeltas d (as.map (toolFragJson none)) st).log = [] ∧
      (runDeltas d (as.map (toolFragJson none)) st).state.toolCall = st.toolCall := by
  induction as generalizing st with
  | nil => exact ⟨rfl, rfl, rfl⟩
  | cons a as ih =>
    have hstep : processData d (toolFragJson none a) st = ⟨[], [], ⟨st.toolCall, st.args ++ a⟩⟩ := by
      rw [processData_toolFrag, if_pos htc]
      exact finishToolCall_notTruthyName d (toolFragJson none a) ⟨st.toolCall, st.args ++ a⟩
        nameV h hn
    have ih2 := ih ⟨st.toolCall, st.args ++ a⟩ h htc
    simp only [List.map_cons, runDeltas_cons, hstep]
    exact ⟨by simp [ih2.1], by simp [ih2.2.1], ih2.2.2⟩

/-- From an idle accumulator, a stream of nameless fragments emits and
dispatches nothing. -/
theorem runDeltas_nameless_idle (d : DeptOracle) (as : List Chars) (st : AccState)
    (hst : truthy st.toolCall = false) :
    (runDeltas d (as.map (toolFragJson none)) st).outs = [] ∧
      (runDeltas d (as.map (toolFragJson none)) st).log = [] := by
  cases as with
  | nil => exact ⟨rfl, rfl⟩
  | cons a as =>
    have hstep : processData d (toolFragJson none a) st =
        ⟨[], [], ⟨some (toolCallObj none a), a⟩⟩ := by
      rw [processData_toolFrag, if_neg (by simp [hst])]
      exact finishToolCall_notTruthyName d (toolFragJson none a)
        ⟨some (toolCallObj none a), a⟩ none (nameOf_toolCallObj_none a) rfl
    have habs := runDeltas_nameless_acc d as ⟨some (toolCallObj none a), a⟩ none
      (nameOf_toolCallObj_none a) rfl (truthy_toolCallObj none a)
    simp only [List.map_cons, runDeltas_cons, hstep]
    exact ⟨by simp [habs.1], by simp [habs.2.1]⟩

/-- While a named tool call is accumulating and no boundary
concatenation of the argument fragments parses as JSON, the stream of
follow-up nameless fragments emits nothing and dispatches nothing: a
buffer that fails to parse is treated as not yet complete (an unknown
function name may silently discard the buffer, still without emitting or
dispatching). -/
theorem runDeltas_named_noParse (d : DeptOracle) (n a1 : Chars) (rs : List Chars) (buf : Chars)
    (H : ∀ j, j ≤ rs.length → Json.parse (buf ++ (rs.take j).flatten) = none) :
    (runDeltas d (rs.map (toolFragJson none)) ⟨some (toolCallObj (some n) a1), buf⟩).outs = [] ∧
    (runDeltas d (rs.map (toolFragJson none)) ⟨some (toolCallObj (some n) a1), buf⟩).log
      = [] := by
  induction rs generalizing buf with
  | nil => exact ⟨rfl, rfl⟩
  | cons r rs ih =>
    have htc : truthy (some (toolCallObj (some n) a1)) = true := truthy_toolCallObj _ _
    have hstep0 : processData d (toolFragJson none r) ⟨some (toolCallObj (some n) a1), buf⟩ =
        finishToolCall d (toolFragJson none r) ⟨some (toolCallObj (some n) a1), buf ++ r⟩ := by
      rw [processData_toolFrag]
      simp [htc]
    have hname : jsAccess2 (some (toolCallObj (some n) a1)) kFunction kName =
        .ok (some (.str n)) := nameOf_toolCallObj_some n a1
    have H' : ∀ j, j ≤ rs.length → Json.parse ((buf ++ r) ++ (rs.take j).flatten) = none := by
      intro j hj
      have := H (j + 1) (by simpa using Nat.succ_le_succ hj)
      simpa [List.take_succ_cons, List.flatten_cons, List.append_assoc] using this
    have hparse1 : Json.parse (buf ++ r) = none := by
      have := H 1 (by simp)
      simpa [List.take_succ_cons, List.flatten_cons] using this
    by_cases hn : truthy (some (Json.str n)) = true
    · by_cases hbr : (buf ++ r).getLast? = some '\x7d'
      · cases hk : getDepartmentKey n with
        | some k =>
          have hfin : finishToolCall d (toolFragJson none r)
              ⟨some (toolCallObj (some n) a1), buf ++ r⟩ =
              ⟨[], [], ⟨some (toolCallObj (some n) a1), buf ++ r⟩⟩ :=
            finishToolCall_parseFail d (toolFragJson none r) _ (some (.str n)) k hname hn hbr
              (by simpa [jsToString] using hk) hparse1
          have ih2 := ih (buf ++ r) H'
          simp only [List.map_cons, runDeltas_cons, hstep0, hfin]
          exact ⟨by simp [ih2.1], by simp [ih2.2]⟩
        | none =>
          have hfin : finishToolCall d (toolFragJson none r)
              ⟨some (toolCallObj (some n) a1), buf ++ r⟩ = ⟨[], [], ⟨none, []⟩⟩ :=
            finishToolCall_unknownName d (toolFragJson none r) _ (some (.str n)) hname hn hbr
              (by simpa [jsToString] using hk)
          have habs := runDeltas_nameless_idle d rs ⟨none, []⟩ rfl
          simp only [List.map_cons, runDeltas_cons, hstep0, hfin]
          exact ⟨by simp [habs.1], by simp [habs.2]⟩
      · have hfin : finishToolCall d (toolFragJson none r)
            ⟨some (toolCallObj (some n) a1), buf ++ r⟩ =
            ⟨[], [], ⟨some (toolCallObj (some n) a1), buf ++ r⟩⟩ :=
          finishToolCall_noBrace d (toolFragJson none r) _ hbr
        have ih2 := ih (buf ++ r) H'
        simp only [List.map_cons, runDeltas_cons, hstep0, hfin]
        exact ⟨by simp [ih2.1], by simp [ih2.2]⟩
    · have hfin : finishToolCall d (toolFragJson none r)
          ⟨some (toolCallObj (some n) a1), buf ++ r⟩ =
          ⟨[], [], ⟨some (toolCallObj (some n) a1), buf ++ r⟩⟩ :=
        finishToolCall_notTruthyName d (toolFragJson none r) _ (some (.str n)) hname
          (Bool.not_eq_true _ ▸ hn)
      have ih2 := ih (buf ++ r) H'
      simp only [List.map_cons, runDeltas_cons, hstep0, hfin]
      exact ⟨by simp [ih2.1], by simp [ih2.2]⟩

/-- Envelope fields of a bare tool-call fragment event are all absent. -/
theorem toolFragJson_envelope (nm : Option Chars) (a : Chars) :
    jsGet (toolFragJson nm a) kId = none ∧ jsGet (toolFragJson nm a) kCreated = none ∧
      jsGet (toolFragJson nm a) kModel = none := ⟨rfl, rfl, rfl⟩

/-- While a named tool call is accumulating, if the completion heuristic
fires at no strict fragment boundary, the run over the remaining nameless
fragments emits and dispatches exactly what the completion check on the
fully concatenated buffer does. -/
theorem runDeltas_named_resolve (d : DeptOracle) (n a1 : Chars) (rs : List Chars) (buf : Chars)
    (hne : rs ≠ [])
    (H2 : ∀ j, 0 < j → j < rs.length →
      ¬(((buf ++ (rs.take j).flatten).getLast? = some '\x7d') ∧
        (Json.parse (buf ++ (rs.take j).flatten)).isSome = true)) :
    (runDeltas d (rs.map (toolFragJson none)) ⟨some (toolCallObj (some n) a1), buf⟩).outs =
      (finishToolCall d (toolFragJson none [])
        ⟨some (toolCallObj (some n) a1), buf ++ rs.flatten⟩).outs ∧
    (runDeltas d (rs.map (toolFragJson none)) ⟨some (toolCallObj (some n) a1), buf⟩).log =
      (finishToolCall d (toolFragJson none [])
        ⟨some (toolCallObj (some n) a1), buf ++ rs.flatten⟩).log := by
  induction rs generalizing buf with
  | nil => exact absurd rfl hne
  | cons r rs ih =>
    have htc : truthy (some (toolCallObj (some n) a1)) = true := truthy_toolCallObj _ _
    have hname : jsAccess2 (some (toolCallObj (some n) a1)) kFunction kName =
        .ok (some (.str n)) := nameOf_toolCallObj_some n a1
    have hstep0 : processData d (toolFragJson none r) ⟨some (toolCallObj (some n) a1), buf⟩ =
        finishToolCall d (toolFragJson none r) ⟨some (toolCallObj (some n) a1), buf ++ r⟩ := by
      rw [processData_toolFrag]
      simp [htc]
    cases rs with
    | nil =>
      have hcongr := finishToolCall_data_congr d (toolFragJson none r) (toolFragJson none [])
        ⟨some (toolCallObj (some n) a1), buf ++ r⟩ rfl rfl rfl
      simp only [List.map_cons, List.map_nil, runDeltas_cons, hstep0, hcongr,
        List.flatten_cons, List.flatten_nil, List.append_nil]
      exact ⟨by simp [runDeltas], by simp [runDeltas]⟩
    | cons r2 rs2 =>
      have H2' : ∀ j, 0 < j → j < (r2 :: rs2).length →
          ¬((((buf ++ r) ++ ((r2 :: rs2).take j).flatten).getLast? = some '\x7d') ∧
            (Json.parse ((buf ++ r) ++ ((r2 :: rs2).take j).flatten)).isSome = true) := by
        intro j hj0 hjlen
        have := H2 (j + 1) (by omega) (by simpa using Nat.succ_lt_succ hjlen)
        simpa [List.take_succ_cons, List.flatten_cons, List.append_assoc] using this
      have hflat : (buf ++ r) ++ (r2 :: rs2).flatten = buf ++ (r :: r2 :: rs2).flatten := by
        simp [List.flatten_cons, List.append_assoc]
      have hcont : finishToolCall d (toolFragJson none r)
            ⟨some (toolCallObj (some n) a1), buf ++ r⟩ =
            ⟨[], [], ⟨some (toolCallObj (some n) a1), buf ++ r⟩⟩ →
          ((runDeltas d ((r :: r2 :: rs2).map (toolFragJson none))
              ⟨some (toolCallObj (some n) a1), buf⟩).outs =
            (finishToolCall d (toolFragJson none [])
              ⟨some (toolCallObj (some n) a1), buf ++ (r :: r2 :: rs2).flatten⟩).outs ∧
          (runDeltas d ((r :: r2 :: rs2).map (toolFragJson none))
              ⟨some (toolCallObj (some n) a1), buf⟩).log =
            (finishToolCall d (toolFragJson none [])
              ⟨some (toolCallObj (some n) a1), buf ++ (r :: r2 :: rs2).flatten⟩).log) := by
        intro hfin
        have ih2 := ih (buf ++ r) (by simp) H2'
        rw [hflat] at ih2
        simp only [List.map_cons, runDeltas_cons, hstep0, hfin]
        exact ⟨by simpa using ih2.1, by simpa using ih2.2⟩
      by_cases hn : truthy (some (Json.str n)) = true
      · by_cases hbr : (buf ++ r).getLast? = some '\x7d'
        · cases hk : getDepartmentKey n with
          | some k =>
            have hparse1 : Json.parse (buf ++ r) = none := by
              have h21 := H2 1 (by omega) (by simp)
              simp only [List.take_succ_cons, List.take_zero, List.flatten_cons,
                List.flatten_nil, List.append_nil] at h21
              cases hopt : Json.parse (buf ++ r) with
              | none => rfl
              | some v => exact absurd ⟨hbr, by simp [hopt]⟩ h21
            exact hcont (finishToolCall_parseFail d (toolFragJson none r) _ (some (.str n)) k
              hname hn hbr (by simpa [jsToString] using hk) hparse1)
          | none =>
            have hfin := finishToolCall_unknownName d (toolFragJson none r)
              ⟨some (toolCallObj (some n) a1), buf ++ r⟩ (some (.str n)) hname hn hbr
              (by simpa [jsToString] using hk)
            have habs := runDeltas_nameless_idle d (r2 :: rs2) ⟨none, []⟩ rfl
            have hq := finishToolCall_unknown_quiet d (toolFragJson none [])
              ⟨some (toolCallObj (some n) a1), buf ++ (r :: r2 :: rs2).flatten⟩
              (some (.str n)) hname (by simpa [jsToString] using hk)
            refine ⟨?_, ?_⟩
            · rw [List.map_cons, runDeltas_cons, hstep0, hfin, hq.1]
              simpa using habs.1
            · rw [List.map_cons, runDeltas_cons, hstep0, hfin, hq.2]
              simpa using habs.2
        · exact hcont (finishToolCall_noBrace d (toolFragJson none r) _ hbr)
      · exact hcont (finishToolCall_notTruthyName d (toolFragJson none r) _ (some (.str n))
          hname (Bool.not_eq_true _ ▸ hn))

/-! ### Chunk-boundary invariance of the SSE frame parser -/

/-- Prepend carried-over text to the first segment of a split. -/
def glueHead (t : Chars) : List Chars → List Chars
  | [] => [t]
  | l :: ls => (t ++ l) :: ls

theorem glueHead_ne_nil (t : Chars) (ls : List Chars) : glueHead t ls ≠ [] := by
  cases ls <;> simp [glueHead]

theorem splitNl_no_nl (s : Chars) (h : '\n' ∉ s) : splitNl s = [s] := by
  induction s with
  | nil => rfl
  | cons c cs ih =>
    have hc : ¬ c = '\n' := fun hc => h (hc ▸ List.mem_cons_self c cs)
    have hcs : '\n' ∉ cs := fun hm => h (List.mem_cons_of_mem c hm)
    simp only [splitNl, if_neg hc, ih hcs]

theorem splitNl_last_no_nl (s : Chars) : '\n' ∉ (splitNl s).getLastD [] := by
  induction s with
  | nil => simp [splitNl]
  | cons c cs ih =>
    simp only [splitNl]
    split
    · cases h : splitNl cs with
      | nil => exact absurd h (splitNl_ne_nil cs)
      | cons l ls =>
        rw [List.getLastD_cons]
        rw [h] at ih
        simpa [List.getLastD_cons] using ih
    · cases h : splitNl cs with
      | nil => exact absurd h (splitNl_ne_nil cs)
      | cons l ls =>
        rw [h] at ih
        cases ls with
        | nil =>
          simp only [List.getLastD_cons, List.getLastD_nil] at ih ⊢
          intro hm
          rcases List.mem_cons.mp hm with h1 | h2
          · exact absurd h1.symm (by assumption)
          · exact ih h2
        | cons l2 ls2 => simpa [List.getLastD_cons] using ih

theorem getLastD_append_right {α : Type} (u v : List α) (d : α) (hv : v ≠ []) :
    (u ++ v).getLastD d = v.getLastD d := by
  rw [List.getLastD_eq_getLast?, List.getLastD_eq_getLast?,
    List.getLast?_append_of_ne_nil _ hv]

theorem splitNl_cons_nl (s : Chars) : splitNl ('\n' :: s) = [] :: splitNl s := rfl

theorem splitNl_cons_ne (c : Char) (s : Chars) (hc : ¬ c = '\n') :
    splitNl (c :: s) = glueHead [c] (splitNl s) := by
  simp only [splitNl, if_neg hc]
  cases h : splitNl s with
  | nil => exact absurd h (splitNl_ne_nil s)
  | cons l ls => simp [glueHead]

/-- Splitting a concatenation: the complete segments of `a`, then the
split of `b` with `a`'s trailing carry glued onto its first segment. -/
theorem splitNl_append (a b : Chars) :
    splitNl (a ++ b) = (splitNl a).dropLast ++ glueHead ((splitNl a).getLastD []) (splitNl b) := by
  induction a with
  | nil =>
    cases h : splitNl b with
    | nil => exact absurd h (splitNl_ne_nil b)
    | cons l ls => simp [splitNl, glueHead, h]
  | cons c cs ih =>
    by_cases hc : c = '\n'
    · subst hc
      rw [show ('\n' :: cs) ++ b = '\n' :: (cs ++ b) from rfl, splitNl_cons_nl, splitNl_cons_nl,
        ih]
      cases h : splitNl cs with
      | nil => exact absurd h (splitNl_ne_nil cs)
      | cons l ls =>
        rw [show ([] :: l :: ls).dropLast = [] :: (l :: ls).dropLast from rfl,
          List.getLastD_cons ([] : Chars) ([] : Chars) (l :: ls)]
        rfl
    · rw [show (c :: cs) ++ b = c :: (cs ++ b) from rfl, splitNl_cons_ne c _ hc,
        splitNl_cons_ne c _ hc, ih]
      cases h : splitNl cs with
      | nil => exact absurd h (splitNl_ne_nil cs)
      | cons l ls =>
        cases ls with
        | nil =>
          cases hb : splitNl b with
          | nil => exact absurd hb (splitNl_ne_nil b)
          | cons lb lsb => simp [glueHead, List.getLastD_cons]
        | cons l2 ls2 =>
          have h1 : (l :: l2 :: ls2).dropLast = l :: (l2 :: ls2).dropLast := rfl
          rw [h1]
          cases hb : splitNl b with
          | nil => exact absurd hb (splitNl_ne_nil b)
          | cons lb lsb =>
            simp [glueHead, List.getLastD_cons]

/-- The carry-over fold invariant: after any chunk sequence, the lines
handed on and the buffer are those of one split of the concatenation. -/
theorem linesOfChunks_loop (cs : List Chars) (ls : List Chars) (buf : Chars)
    (hbuf : '\n' ∉ buf) :
    List.foldl feedChunk (ls, buf) cs =
      (ls ++ (splitNl (buf ++ cs.flatten)).dropLast,
       (splitNl (buf ++ cs.flatten)).getLastD []) := by
  induction cs generalizing ls buf with
  | nil => simp [splitNl_no_nl buf hbuf]
  | cons c cs ih =>
    simp only [List.foldl_cons, feedChunk]
    rw [ih _ _ (splitNl_last_no_nl (buf ++ c))]
    have happ := splitNl_append (buf ++ c) cs.flatten
    have hmid : splitNl ((splitNl (buf ++ c)).getLastD [] ++ cs.flatten) =
        glueHead ((splitNl (buf ++ c)).getLastD []) (splitNl cs.flatten) := by
      rw [splitNl_append ((splitNl (buf ++ c)).getLastD []) cs.flatten,
        splitNl_no_nl _ (splitNl_last_no_nl (buf ++ c))]
      simp [List.getLastD_cons]
    have hflat : buf ++ (c :: cs).flatten = (buf ++ c) ++ cs.flatten := by
      simp [List.flatten_cons, List.append_assoc]
    rw [hflat, happ, hmid]
    have hgne : glueHead ((splitNl (buf ++ c)).getLastD []) (splitNl cs.flatten) ≠ [] :=
      glueHead_ne_nil _ _
    rw [List.dropLast_append_of_ne_nil _ hgne, getLastD_append_right _ _ _ hgne]
    simp [List.append_assoc]

theorem foldl_feedChunk_accum (cs : List Chars) (ls : List Chars) (buf : Chars) :
    List.foldl feedChunk (ls, buf) cs =
      (ls ++ (List.foldl feedChunk ([], buf) cs).1, (List.foldl feedChunk ([], buf) cs).2) := by
  induction cs generalizing ls buf with
  | nil => simp
  | cons c cs ih =>
    simp only [List.foldl_cons, feedChunk, List.nil_append]
    rw [ih (ls ++ (splitNl (buf ++ c)).dropLast) ((splitNl (buf ++ c)).getLastD []),
      ih ((splitNl (buf ++ c)).dropLast) ((splitNl (buf ++ c)).getLastD [])]
    simp [List.append_assoc]

/-- The read loop is the line fold over what the frame parser yields. -/
theorem runChunks_eq_runLines (d : DeptOracle) (cs : List Chars) (buf : Chars) (st : AccState) :
    runChunks d cs buf st = runLines d (List.foldl feedChunk ([], buf) cs).1 st := by
  induction cs generalizing buf st with
  | nil => rfl
  | cons c cs ih =>
    rw [runChunks, ih ((splitNl (buf ++ c)).getLastD [])]
    rw [show List.foldl feedChunk ([], buf) (c :: cs) =
        List.foldl feedChunk ((splitNl (buf ++ c)).dropLast,
          (splitNl (buf ++ c)).getLastD []) cs
      from by simp [feedChunk]]
    conv_rhs => rw [foldl_feedChunk_accum]
    dsimp only
    rw [runLines_append]

/-! ## The claims -/

/-- The ticket payload of the specification's round-trip example. -/
def ticketPayload : Chars :=
  ("\x7b\"Ticket No.\": 42, \"Classification\": \"sports\"\x7d".data)

/-- The request method string of interest to the validation claims. -/
def methodPost : Chars := ("POST".data)

/-- C6: for every upstream stream and every way of splitting it into
chunks — including boundaries inside a line — the carry-over-buffer
logic yields the identical ordered sequence of complete lines (and the
identical final carry) as delivering the whole stream as one chunk, so no
line is lost or duplicated by re-chunking.  (Byte boundaries inside one
UTF-8 code point are reassembled by `TextDecoder` in streaming mode, a
platform primitive outside this repository, so chunks are modelled as
character sequences.) -/
theorem claimC6 (chunks : List Chars) :
    linesOfChunks chunks = linesOfChunks [chunks.flatten] := by
  rw [linesOfChunks, linesOfChunks,
    linesOfChunks_loop chunks [] [] (by simp),
    linesOfChunks_loop [chunks.flatten] [] [] (by simp)]
  simp

/-- C8: a department completion payload that parses as a JSON object is
rendered by `formatDepartmentResponse` as its first `Object.entries`
pair, `{key} {value}`, truncating all later pairs; the specification's
ticket example renders to `Ticket No. 42`; and a payload that does not
parse as JSON is returned unchanged. -/
theorem claimC8 :
    (∀ (s : Chars) (j : Json) (k : Chars) (v : Json) (rest : List (Chars × Json)),
        Json.parse s = some j → jsEntries j = some ((k, v) :: rest) →
        formatDepartmentResponse s = k ++ ' ' :: jsToString v) ∧
    (∀ s : Chars, Json.parse s = none → formatDepartmentResponse s = s) ∧
    formatDepartmentResponse ticketPayload = ("Ticket No. 42".data) := by
  refine ⟨?_, ?_, ?_⟩
  · intro s j k v rest hp he
    simp only [formatDepartmentResponse, hp, he]
  · intro s hp
    simp only [formatDepartmentResponse, hp]
  · rfl

theorem claimC8_witness :
    formatDepartmentResponse ticketPayload =
      ("Ticket No.".data) ++ ' ' :: jsToString (.num 42) ∧
    formatDepartmentResponse ("not json".data) = ("not json".data) :=
  ⟨claimC8.1 ticketPayload
      (.obj [(("Ticket No.".data), .num 42), (("Classification".data), .str ("sports".data))])
      ("Ticket No.".data) (.num 42) [(("Classification".data), .str ("sports".data))]
      rfl rfl,
   claimC8.2.1 ("not json".data) rfl⟩

/-- C9: a POST whose body lacks a `messages` field, whose `messages` is
not an array, or whose `messages` array is empty is answered with status
400 and a JSON `\x7berror: <message>\x7d` body — with message
`Invalid or empty messages array` in the empty-array case — and the
handler never reaches the upstream call (hence makes no upstream or
department call); a body that fails to parse is also answered 400. -/
theorem claimC9 :
    (∀ b : Json,
      (jsGet b kMessages = none ∨ (∀ ms, jsGet b kMessages ≠ some (.arr ms)) ∨
        jsGet b kMessages = some (.arr [])) →
      (∃ m, handleFetch methodPost (some b) = .badRequest m) ∧
      (jsGet b kMessages = some (.arr []) →
        handleFetch methodPost (some b) = .badRequest invalidMessagesMsg) ∧
      (∀ ms, handleFetch methodPost (some b) ≠ .upstreamCall ms)) ∧
    handleFetch methodPost none = .badRequest bodyParseErrorMsg := by
  constructor
  · intro b hb
    cases b with
    | null =>
      refine ⟨⟨nullBodyMsg, rfl⟩, ?_, ?_⟩
      · intro h
        exact absurd h (by simp [jsGet])
      · intro ms h
        rw [show handleFetch methodPost (some .null) = .badRequest nullBodyMsg from rfl] at h
        exact HandlerResult.noConfusion h
    | bool bb =>
      refine ⟨⟨invalidMessagesMsg, rfl⟩, ?_, ?_⟩
      · intro h
        exact absurd h (by simp [jsGet])
      · intro ms h
        rw [show handleFetch methodPost (some (.bool bb)) = .badRequest invalidMessagesMsg
          from rfl] at h
        exact HandlerResult.noConfusion h
    | num n =>
      refine ⟨⟨invalidMessagesMsg, rfl⟩, ?_, ?_⟩
      · intro h
        exact absurd h (by simp [jsGet])
      · intro ms h
        rw [show handleFetch methodPost (some (.num n)) = .badRequest invalidMessagesMsg
          from rfl] at h
        exact HandlerResult.noConfusion h
    | str s =>
      have hred : handleFetch methodPost (some (.str s)) = .badRequest invalidMessagesMsg := rfl
      refine ⟨⟨invalidMessagesMsg, hred⟩, ?_, ?_⟩
      · intro h
        exact absurd h (by simp [jsGet, canonIndex, kMessages, isDigit])
      · intro ms h
        rw [hred] at h
        exact HandlerResult.noConfusion h
    | arr xs =>
      have hred : handleFetch methodPost (some (.arr xs)) = .badRequest invalidMessagesMsg := rfl
      refine ⟨⟨invalidMessagesMsg, hred⟩, ?_, ?_⟩
      · intro h
        exact absurd h (by simp [jsGet, canonIndex, kMessages, isDigit])
      · intro ms h
        rw [hred] at h
        exact HandlerResult.noConfusion h
    | obj fs =>
      have hred : handleFetch methodPost (some (.obj fs)) =
          (if ¬ truthy (lookupField fs kMessages) then
            HandlerResult.badRequest invalidMessagesMsg
          else
            match lookupField fs kMessages with
            | some (.arr []) => .badRequest invalidMessagesMsg
            | some (.arr ms) => .upstreamCall ms
            | _ => .badRequest invalidMessagesMsg) := rfl
      have hmem : jsGet (Json.obj fs) kMessages = lookupField fs kMessages := rfl
      rw [hmem] at hb
      have hval : handleFetch methodPost (some (.obj fs)) = .badRequest invalidMessagesMsg := by
        rw [hred]
        cases hlv : lookupField fs kMessages with
        | none => simp [truthy]
        | some v =>
          rcases hb with h1 | h2 | h3
          · rw [hlv] at h1
            exact Option.noConfusion h1
          · cases v with
            | null => simp [truthy]
            | bool b2 => cases b2 <;> simp [truthy]
            | num n => by_cases hz : n = 0 <;> simp [truthy, hz]
            | str s => by_cases hz : s = [] <;> simp [truthy, hz]
            | obj fs2 => simp [truthy]
            | arr ms =>
              exact absurd rfl (hlv ▸ h2 ms)
          · rw [hlv] at h3
            cases h3
            simp [truthy]
      refine ⟨⟨invalidMessagesMsg, hval⟩, fun _ => hval, ?_⟩
      intro ms h
      rw [hval] at h
      exact HandlerResult.noConfusion h
  · rfl

theorem claimC9_witness :
    (∃ m, handleFetch methodPost (some (.obj [])) = .badRequest m) ∧
    handleFetch methodPost
        (some (.obj [(kMessages, .arr [])])) = .badRequest invalidMessagesMsg :=
  ⟨(claimC9.1 (.obj []) (Or.inl rfl)).1,
   (claimC9.1 (.obj [(kMessages, .arr [])]) (Or.inr (Or.inr rfl))).2.1 rfl⟩

def sportsName : Chars := ("call_sports_dept".data)

def travelName : Chars := ("call_travel_dept".data)

/-- An incomplete argument-buffer prefix. -/
def bufA : Chars := ("\x7b\"a\":".data)

/-- An accumulating state: a sports tool call with a partial buffer. -/
def c2State : AccState := ⟨some (toolCallObj (some sportsName) bufA), bufA⟩

/-- A complete tool-call argument text. -/
def argTextX : Chars := ("\x7b\"customerQuery\":\"x\"\x7d".data)

/-- The wire line carrying a completed sports tool call. -/
def toolLineSports : Chars := lineOf (toolFragJson (some sportsName) argTextX)

/-- A content event whose upstream `object` field differs from the
constant the splicer stamps. -/
def c4Data : Json :=
  contentEventJson ("i1".data) ("orig-object".data) 7 ("m".data) ("hello".data)

/-- C3 (amended): every line equal after trimming to the case-sensitive
sentinel `data: [DONE]` is forwarded verbatim to the output as
`data: [DONE]\n\n` and leaves the accumulator untouched — but parsing
does NOT stop: every later line of the stream is still processed
normally (so a second sentinel line is forwarded again; the original
claim's exactly-once and parsing-stops parts are refuted by
`claimC3_counterexample`). -/
theorem claimC3 (d : DeptOracle) (line : Chars) (rest : List Chars) (st : AccState)
    (h : jsTrim line = ("data: [DONE]".data)) :
    runLines d (line :: rest) st =
      ⟨.done :: (runLines d rest st).outs, (runLines d rest st).log,
       (runLines d rest st).state⟩ ∧
    OutEvent.wire .done = ("data: [DONE]\n\n".data) := by
  constructor
  · rw [runLines_cons, processLine_sentinel d line st h]
    rfl
  · rfl

theorem claimC3_witness :
    runLines dOkTicket [doneLine] idleAcc =
      ⟨.done :: (runLines dOkTicket [] idleAcc).outs, (runLines dOkTicket [] idleAcc).log,
       (runLines dOkTicket [] idleAcc).state⟩ ∧
    OutEvent.wire .done = ("data: [DONE]\n\n".data) :=
  claimC3 dOkTicket doneLine [] idleAcc rfl

theorem claimC3_counterexample :
    runLines dOkTicket [doneLine, doneLine] idleAcc = ⟨[.done, .done], [], idleAcc⟩ := rfl

/-- C4 (amended): every event `processData` emits carries `id`, `created`
and `model` copied from the upstream event that triggered it (for
department-injected content, the triggering tool-call event), but the
`object` field is the constant `chat.completion.chunk` in this revision
rather than a copy of the upstream `object`
(`claimC4_counterexample`); the hybrid revision's `enqueueContentChunk`
copies `object` from the upstream event like the other fields. -/
theorem claimC4 :
    (∀ (d : DeptOracle) (data : Json) (st : AccState) (e : OutEvent),
        e ∈ (processData d data st).outs →
        ∃ ct, e = .chunk (jsGet data kId) (some (.str ("chat.completion.chunk".data)))
          (jsGet data kCreated) (jsGet data kModel) ct) ∧
    (∀ (data ct : Json), enqueueContentChunkHybrid data ct =
        .chunk (jsGet data kId) (jsGet data kObject) (jsGet data kCreated) (jsGet data kModel)
          ct) := by
  constructor
  · intro d data st e he
    rcases processData_outs_shape d data st with h | ⟨c, h⟩
    · rw [h] at he
      exact absurd he (List.not_mem_nil e)
    · rw [h] at he
      exact ⟨c, by rw [List.mem_singleton.mp he]; rfl⟩
  · intro data ct
    rfl

theorem claimC4_witness :
    ∃ ct, OutEvent.chunk (some (.str ("i1".data)))
        (some (.str ("chat.completion.chunk".data)))
        (some (.num 7)) (some (.str ("m".data))) (.str ("hello".data)) =
      .chunk (jsGet c4Data kId) (some (.str ("chat.completion.chunk".data)))
        (jsGet c4Data kCreated) (jsGet c4Data kModel) ct :=
  claimC4.1 dOkTicket c4Data idleAcc _
    (by rw [show (processData dOkTicket c4Data idleAcc).outs =
        [OutEvent.chunk (some (.str ("i1".data)))
          (some (.str ("chat.completion.chunk".data)))
          (some (.num 7)) (some (.str ("m".data))) (.str ("hello".data))] from rfl]
        exact List.mem_singleton_self _)

theorem claimC4_counterexample :
    (processData dOkTicket c4Data idleAcc).outs =
      [.chunk (some (.str ("i1".data))) (some (.str ("chat.completion.chunk".data)))
        (some (.num 7)) (some (.str ("m".data))) (.str ("hello".data))] ∧
    jsGet c4Data kObject = some (.str ("orig-object".data)) ∧
    ("chat.completion.chunk".data) ≠ ("orig-object".data) :=
  ⟨rfl, rfl, by decide⟩

/-- C2 (amended): while one tool call is accumulating, a second
`ToolCallDelta` carrying a new function name does NOT overwrite the
pending state: the stored tool call (and hence its buffered name) is
retained, the new fragment's name is ignored entirely — the result does
not depend on it — and the fragment's argument text is appended to the
existing buffer before the usual completion check; at most one tool call
is tracked and no crash occurs (the step is total). -/
theorem claimC2 (d : DeptOracle) (st : AccState) (n2 n3 : Option Chars) (a : Chars)
    (htc : truthy st.toolCall = true) :
    processData d (toolFragJson n2 a) st =
      finishToolCall d (toolFragJson n2 a) ⟨st.toolCall, st.args ++ a⟩ ∧
    processData d (toolFragJson n2 a) st = processData d (toolFragJson n3 a) st := by
  have h2 := processData_toolFrag d n2 a st
  have h3 := processData_toolFrag d n3 a st
  rw [if_pos htc] at h2 h3
  refine ⟨h2, ?_⟩
  rw [h2, h3]
  exact finishToolCall_data_congr d _ _ _ rfl rfl rfl

theorem claimC2_witness :
    processData dOkTicket (toolFragJson (some travelName) ("1".data)) c2State =
      finishToolCall dOkTicket (toolFragJson (some travelName) ("1".data))
        ⟨c2State.toolCall, c2State.args ++ ("1".data)⟩ ∧
    processData dOkTicket (toolFragJson (some travelName) ("1".data)) c2State =
      processData dOkTicket (toolFragJson none ("1".data)) c2State :=
  claimC2 dOkTicket c2State (some travelName) none ("1".data) rfl

theorem claimC2_counterexample :
    processData dOkTicket (toolFragJson (some travelName) ("1".data)) c2State =
      ⟨[], [], ⟨some (toolCallObj (some sportsName) bufA), bufA ++ ("1".data)⟩⟩ ∧
    jsAccess2 (some (toolCallObj (some sportsName) bufA)) kFunction kName =
      .ok (some (.str sportsName)) ∧
    sportsName ≠ travelName :=
  ⟨rfl, rfl, by decide⟩

/-- C10: when the department call made on tool-call completion throws
(here: a non-OK HTTP status), the catch swallows the error and
`processLine` hands back the pending tool call and the full appended
argument buffer unchanged — the accumulator is NOT reset to idle — so a
later fragment in the same stream appends to the stale buffer of the
call that already triggered a dispatch attempt. -/
theorem claimC10 (d : DeptOracle) (st : AccState) (a a2 : Chars) (nameV : Option Json)
    (k : DeptKey) (aj : Json) (status : Nat) (stx : Chars)
    (htc : truthy st.toolCall = true)
    (hname : jsAccess2 st.toolCall kFunction kName = .ok nameV)
    (hn : truthy nameV = true)
    (hb : (st.args ++ a).getLast? = some '\x7d')
    (hk : getDepartmentKey (jsToString (nameV.getD .null)) = some k)
    (hp : Json.parse (st.args ++ a) = some aj)
    (haj : aj ≠ .null)
    (hd : d k (jsGet aj kCustomerQuery) = .httpError status stx) :
    processData d (toolFragJson none a) st =
      ⟨[], [(k, jsGet aj kCustomerQuery)], ⟨st.toolCall, st.args ++ a⟩⟩ ∧
    processData d (toolFragJson none a2) ⟨st.toolCall, st.args ++ a⟩ =
      finishToolCall d (toolFragJson none a2) ⟨st.toolCall, st.args ++ a ++ a2⟩ := by
  constructor
  · rw [processData_toolFrag, if_pos htc]
    exact finishToolCall_deptFail d _ ⟨st.toolCall, st.args ++ a⟩ nameV k aj status stx
      hname hn hb hk hp haj hd
  · rw [processData_toolFrag, if_pos htc]

/-- A buffer one closing brace short of the complete argument text. -/
def preBuf : Chars := ("\x7b\"customerQuery\":\"x\"".data)

/-- An accumulating sports tool call whose buffer completes on the next
brace. -/
def c10State : AccState := ⟨some (toolCallObj (some sportsName) preBuf), preBuf⟩

/-- The parsed argument object of `argTextX`. -/
def ajX : Json := .obj [(kCustomerQuery, .str ('x' :: []))]

theorem claimC10_witness :
    processData dFail503 (toolFragJson none ('\x7d' :: [])) c10State =
      ⟨[], [(DeptKey.sports, jsGet ajX kCustomerQuery)],
       ⟨c10State.toolCall, c10State.args ++ ('\x7d' :: [])⟩⟩ ∧
    processData dFail503 (toolFragJson none ('y' :: []))
        ⟨c10State.toolCall, c10State.args ++ ('\x7d' :: [])⟩ =
      finishToolCall dFail503 (toolFragJson none ('y' :: []))
        ⟨c10State.toolCall, c10State.args ++ ('\x7d' :: []) ++ ('y' :: [])⟩ :=
  claimC10 dFail503 c10State ('\x7d' :: []) ('y' :: []) (some (.str sportsName)) .sports
    ajX 503 ("Service Unavailable".data) rfl rfl rfl rfl rfl rfl
    (fun h => Json.noConfusion h) rfl

/-- C1 (amended): when a completed tool call's department backend
answers with a non-OK status, the thrown error is caught and swallowed:
the request is not aborted, every subsequent upstream line is still
processed, and a trailing sentinel still terminates the output with
`data: [DONE]\n\n` — but NO content chunk describing the failure is
emitted (the completion check emits nothing at all under a failing
backend; the original claim's apologetic-chunk part is refuted by
`claimC1_counterexample`). -/
theorem claimC1 (d : DeptOracle) (hd : ∀ k q, (d k q).isErr = true) :
    (∀ (ls : List Chars) (st : AccState),
      runLines d (ls ++ [doneLine]) st =
        ⟨(runLines d ls st).outs ++ [.done], (runLines d ls st).log,
         (runLines d ls st).state⟩) ∧
    (∀ (data : Json) (st : AccState), (finishToolCall d data st).outs = []) := by
  constructor
  · intro ls st
    have hs : ∀ st' : AccState, runLines d [doneLine] st' = ⟨[.done], [], st'⟩ := by
      intro st'
      rw [runLines_cons, processLine_sentinel d doneLine st' rfl]
      rfl
    rw [runLines_append, hs]
    simp
  · intro data st
    cases h : jsAccess2 st.toolCall kFunction kName with
    | error e => rw [finishToolCall_nameError d data st e h]
    | ok nameV =>
      by_cases hn : truthy nameV = true
      · by_cases hb : st.args.getLast? = some '\x7d'
        · cases hk : getDepartmentKey (jsToString (nameV.getD .null)) with
          | none => rw [finishToolCall_unknownName d data st nameV h hn hb hk]
          | some k =>
            cases hp : Json.parse st.args with
            | none => rw [finishToolCall_parseFail d data st nameV k h hn hb hk hp]
            | some aj =>
              by_cases haj : aj = .null
              · subst haj
                rw [finishToolCall_nullArgs d data st nameV k h hn hb hk hp]
              · cases hdr : d k (jsGet aj kCustomerQuery) with
                | ok c =>
                  have hx := hd k (jsGet aj kCustomerQuery)
                  rw [hdr] at hx
                  exact absurd hx (by simp [DeptResult.isErr])
                | httpError status stx =>
                  rw [finishToolCall_deptFail d data st nameV k aj status stx h hn hb hk hp
                    haj hdr]
        · rw [finishToolCall_noBrace d data st hb]
      · rw [finishToolCall_notTruthyName d data st nameV h (Bool.not_eq_true _ ▸ hn)]

set_option maxRecDepth 100000 in
theorem claimC1_witness :
    runLines dFail503 ([toolLineSports] ++ [doneLine]) idleAcc =
      ⟨(runLines dFail503 [toolLineSports] idleAcc).outs ++ [.done],
       (runLines dFail503 [toolLineSports] idleAcc).log,
       (runLines dFail503 [toolLineSports] idleAcc).state⟩ ∧
    (finishToolCall dFail503 (toolFragJson none []) idleAcc).outs = [] :=
  ⟨(claimC1 dFail503 (fun _ _ => rfl)).1 [toolLineSports] idleAcc,
   (claimC1 dFail503 (fun _ _ => rfl)).2 (toolFragJson none []) idleAcc⟩

set_option maxRecDepth 100000 in
theorem claimC1_counterexample :
    (runLines dFail503 [toolLineSports, doneLine] idleAcc).outs = [.done] ∧
    (runLines dFail503 [toolLineSports, doneLine] idleAcc).log =
      [(DeptKey.sports, some (.str ('x' :: [])))] := ⟨rfl, rfl⟩

/-- C7: for every tool call whose argument buffer never parses as JSON
at any fragment boundary before the stream ends, no department dispatch
occurs and nothing is emitted (and no crash results — the step function
is total); moreover, when the buffer ends in a closing brace, names a
known department, but fails to parse, the parse error is swallowed and
the accumulator is handed back unchanged — parse failure is treated as
not-yet-complete, never as a hard error. -/
theorem claimC7 :
    (∀ (d : DeptOracle) (n a1 : Chars) (rest : List Chars),
      (∀ j, j ≤ rest.length → Json.parse (a1 ++ (rest.take j).flatten) = none) →
      (runDeltas d (toolFragJson (some n) a1 :: rest.map (toolFragJson none)) idleAcc).log = []
        ∧
      (runDeltas d (toolFragJson (some n) a1 :: rest.map (toolFragJson none)) idleAcc).outs
        = []) ∧
    (∀ (d : DeptOracle) (data : Json) (st : AccState) (nameV : Option Json) (k : DeptKey),
      jsAccess2 st.toolCall kFunction kName = .ok nameV → truthy nameV = true →
      st.args.getLast? = some '\x7d' →
      getDepartmentKey (jsToString (nameV.getD .null)) = some k →
      Json.parse st.args = none →
      finishToolCall d data st = ⟨[], [], st⟩) := by
  constructor
  · intro d n a1 rest H
    have hstep : processData d (toolFragJson (some n) a1) idleAcc =
        finishToolCall d (toolFragJson (some n) a1) ⟨some (toolCallObj (some n) a1), a1⟩ := by
      rw [processData_toolFrag, if_neg (by simp [idleAcc, truthy])]
    have hname := nameOf_toolCallObj_some n a1
    have hp0 : Json.parse a1 = none := by simpa using H 0 (Nat.zero_le _)
    have hkeep : finishToolCall d (toolFragJson (some n) a1)
          ⟨some (toolCallObj (some n) a1), a1⟩ =
          ⟨[], [], ⟨some (toolCallObj (some n) a1), a1⟩⟩ →
        (runDeltas d (toolFragJson (some n) a1 :: rest.map (toolFragJson none)) idleAcc).log
            = [] ∧
        (runDeltas d (toolFragJson (some n) a1 :: rest.map (toolFragJson none)) idleAcc).outs
            = [] := by
      intro hfin
      have hrest := runDeltas_named_noParse d n a1 rest a1 H
      constructor
      · rw [runDeltas_cons, hstep, hfin]
        simpa using hrest.2
      · rw [runDeltas_cons, hstep, hfin]
        simpa using hrest.1
    by_cases hn : truthy (some (Json.str n)) = true
    · by_cases hbr : a1.getLast? = some '\x7d'
      · cases hk : getDepartmentKey n with
        | some k =>
          exact hkeep (finishToolCall_parseFail d (toolFragJson (some n) a1)
            ⟨some (toolCallObj (some n) a1), a1⟩ (some (.str n)) k hname hn hbr
            (by simpa [jsToString] using hk) hp0)
        | none =>
          have hfin := finishToolCall_unknownName d (toolFragJson (some n) a1)
            ⟨some (toolCallObj (some n) a1), a1⟩ (some (.str n)) hname hn hbr
            (by simpa [jsToString] using hk)
          have habs := runDeltas_nameless_idle d rest ⟨none, []⟩ rfl
          constructor
          · rw [runDeltas_cons, hstep, hfin]
            simpa using habs.2
          · rw [runDeltas_cons, hstep, hfin]
            simpa using habs.1
      · exact hkeep (finishToolCall_noBrace d (toolFragJson (some n) a1)
          ⟨some (toolCallObj (some n) a1), a1⟩ hbr)
    · exact hkeep (finishToolCall_notTruthyName d (toolFragJson (some n) a1)
        ⟨some (toolCallObj (some n) a1), a1⟩ (some (.str n)) hname (Bool.not_eq_true _ ▸ hn))
  · intro d data st nameV k hname hn hb hk hp
    exact finishToolCall_parseFail d data st nameV k hname hn hb hk hp

/-- An accumulating sports tool call whose buffer ends in a closing
brace yet is not valid JSON. -/
def c7State : AccState := ⟨some (toolCallObj (some sportsName) bufA), ("\x7b\"a\":\x7d".data)⟩

theorem claimC7_witness :
    ((runDeltas dOkTicket
        (toolFragJson (some sportsName) bufA :: [('1' :: [])].map (toolFragJson none))
        idleAcc).log = [] ∧
      (runDeltas dOkTicket
        (toolFragJson (some sportsName) bufA :: [('1' :: [])].map (toolFragJson none))
        idleAcc).outs = []) ∧
    finishToolCall dOkTicket (toolFragJson none []) c7State = ⟨[], [], c7State⟩ := by
  constructor
  · exact claimC7.1 dOkTicket sportsName bufA [('1' :: [])]
      (fun j hj => by
        have hj' : j ≤ 1 := by simpa using hj
        interval_cases j <;> rfl)
  · exact claimC7.2 dOkTicket (toolFragJson none []) c7State (some (.str sportsName)) .sports
      rfl rfl rfl rfl rfl

/-- C5 (amended): a tool call whose argument text is delivered split
across N fragments resolves to the same dispatches and the same output
as single-fragment delivery of the concatenation, provided the
concatenation is valid JSON AND the completion heuristic does not fire
at a strict fragment boundary — no strict boundary prefix of the
concatenation both ends with a closing brace and parses as JSON (without
that proviso the claim fails: see `claimC5_counterexample`, where a
trailing-whitespace fragment makes split delivery dispatch while
single-fragment delivery does not). -/
theorem claimC5 (d : DeptOracle) (n a1 : Chars) (rest : List Chars) (v : Json)
    (H1 : Json.parse (a1 ++ rest.flatten) = some v)
    (H2 : ∀ j, j < rest.length →
      ¬(((a1 ++ (rest.take j).flatten).getLast? = some '\x7d') ∧
        (Json.parse (a1 ++ (rest.take j).flatten)).isSome = true)) :
    (runDeltas d (toolFragJson (some n) a1 :: rest.map (toolFragJson none)) idleAcc).log =
      (runDeltas d [toolFragJson (some n) (a1 ++ rest.flatten)] idleAcc).log ∧
    (runDeltas d (toolFragJson (some n) a1 :: rest.map (toolFragJson none)) idleAcc).outs =
      (runDeltas d [toolFragJson (some n) (a1 ++ rest.flatten)] idleAcc).outs := by
  cases rest with
  | nil =>
    constructor <;> simp
  | cons r rs =>
    have hstepS : processData d (toolFragJson (some n) (a1 ++ (r :: rs).flatten)) idleAcc =
        finishToolCall d (toolFragJson (some n) (a1 ++ (r :: rs).flatten))
          ⟨some (toolCallObj (some n) (a1 ++ (r :: rs).flatten)), a1 ++ (r :: rs).flatten⟩ := by
      rw [processData_toolFrag, if_neg (by simp [idleAcc, truthy])]
    have hcongrS := finishToolCall_congr d
      (toolFragJson (some n) (a1 ++ (r :: rs).flatten)) (toolFragJson none [])
      ⟨some (toolCallObj (some n) (a1 ++ (r :: rs).flatten)), a1 ++ (r :: rs).flatten⟩
      ⟨some (toolCallObj (some n) a1), a1 ++ (r :: rs).flatten⟩
      ((nameOf_toolCallObj_some n (a1 ++ (r :: rs).flatten)).trans
        (nameOf_toolCallObj_some n a1).symm) rfl rfl rfl rfl
    have hsingleLog : (runDeltas d [toolFragJson (some n) (a1 ++ (r :: rs).flatten)]
          idleAcc).log =
        (finishToolCall d (toolFragJson none [])
          ⟨some (toolCallObj (some n) a1), a1 ++ (r :: rs).flatten⟩).log := by
      rw [runDeltas_cons, hstepS]
      simpa [runDeltas] using hcongrS.2
    have hsingleOuts : (runDeltas d [toolFragJson (some n) (a1 ++ (r :: rs).flatten)]
          idleAcc).outs =
        (finishToolCall d (toolFragJson none [])
          ⟨some (toolCallObj (some n) a1), a1 ++ (r :: rs).flatten⟩).outs := by
      rw [runDeltas_cons, hstepS]
      simpa [runDeltas] using hcongrS.1
    have hstepM : processData d (toolFragJson (some n) a1) idleAcc =
        finishToolCall d (toolFragJson (some n) a1) ⟨some (toolCallObj (some n) a1), a1⟩ := by
      rw [processData_toolFrag, if_neg (by simp [idleAcc, truthy])]
    have hname := nameOf_toolCallObj_some n a1
    have hcont : finishToolCall d (toolFragJson (some n) a1)
          ⟨some (toolCallObj (some n) a1), a1⟩ =
          ⟨[], [], ⟨some (toolCallObj (some n) a1), a1⟩⟩ →
        ((runDeltas d (toolFragJson (some n) a1 :: (r :: rs).map (toolFragJson none))
            idleAcc).log =
          (runDeltas d [toolFragJson (some n) (a1 ++ (r :: rs).flatten)] idleAcc).log ∧
        (runDeltas d (toolFragJson (some n) a1 :: (r :: rs).map (toolFragJson none))
            idleAcc).outs =
          (runDeltas d [toolFragJson (some n) (a1 ++ (r :: rs).flatten)] idleAcc).outs) := by
      intro hfin
      have hres := runDeltas_named_resolve d n a1 (r :: rs) a1 (by simp)
        (fun j hj0 hjlen => H2 j (by simpa using hjlen))
      constructor
      · rw [runDeltas_cons, hstepM, hfin, hsingleLog]
        simpa using hres.2
      · rw [runDeltas_cons, hstepM, hfin, hsingleOuts]
        simpa using hres.1
    by_cases hn : truthy (some (Json.str n)) = true
    · by_cases hbr : a1.getLast? = some '\x7d'
      · have hp0 : Json.parse a1 = none := by
          have h20 := H2 0 (by simp)
          simp only [List.take_zero, List.flatten_nil, List.append_nil] at h20
          cases hopt : Json.parse a1 with
          | none => rfl
          | some w => exact absurd ⟨hbr, by simp [hopt]⟩ h20
        cases hk : getDepartmentKey n with
        | some k =>
          exact hcont (finishToolCall_parseFail d (toolFragJson (some n) a1)
            ⟨some (toolCallObj (some n) a1), a1⟩ (some (.str n)) k hname hn hbr
            (by simpa [jsToString] using hk) hp0)
        | none =>
          have hfin := finishToolCall_unknownName d (toolFragJson (some n) a1)
            ⟨some (toolCallObj (some n) a1), a1⟩ (some (.str n)) hname hn hbr
            (by simpa [jsToString] using hk)
          have habs := runDeltas_nameless_idle d (r :: rs) ⟨none, []⟩ rfl
          have hq := finishToolCall_unknown_quiet d (toolFragJson none [])
            ⟨some (toolCallObj (some n) a1), a1 ++ (r :: rs).flatten⟩ (some (.str n)) hname
            (by simpa [jsToString] using hk)
          constructor
          · rw [runDeltas_cons, hstepM, hfin, hsingleLog, hq.2]
            simpa using habs.2
          · rw [runDeltas_cons, hstepM, hfin, hsingleOuts, hq.1]
            simpa using habs.1
      · exact hcont (finishToolCall_noBrace d (toolFragJson (some n) a1)
          ⟨some (toolCallObj (some n) a1), a1⟩ hbr)
    · exact hcont (finishToolCall_notTruthyName d (toolFragJson (some n) a1)
        ⟨some (toolCallObj (some n) a1), a1⟩ (some (.str n)) hname (Bool.not_eq_true _ ▸ hn))

theorem claimC5_witness :
    (runDeltas dOkTicket
        (toolFragJson (some sportsName) preBuf :: [('\x7d' :: [])].map (toolFragJson none))
        idleAcc).log =
      (runDeltas dOkTicket [toolFragJson (some sportsName)
        (preBuf ++ [('\x7d' :: [])].flatten)] idleAcc).log ∧
    (runDeltas dOkTicket
        (toolFragJson (some sportsName) preBuf :: [('\x7d' :: [])].map (toolFragJson none))
        idleAcc).outs =
      (runDeltas dOkTicket [toolFragJson (some sportsName)
        (preBuf ++ [('\x7d' :: [])].flatten)] idleAcc).outs :=
  claimC5 dOkTicket sportsName preBuf [('\x7d' :: [])] ajX rfl
    (fun j hj => by
      have hj' : j = 0 := by simpa using hj
      subst hj'
      simp only [List.take_zero, List.flatten_nil, List.append_nil]
      intro hand
      exact absurd hand.1 (by decide))

theorem claimC5_counterexample :
    (Json.parse (argTextX ++ (' ' :: []))).isSome = true ∧
    (runDeltas dOkTicket
        [toolFragJson (some sportsName) (argTextX ++ (' ' :: []))] idleAcc).log = [] ∧
    (runDeltas dOkTicket
        [toolFragJson (some sportsName) argTextX, toolFragJson none (' ' :: [])]
        idleAcc).log = [(DeptKey.sports, some (.str ('x' :: [])))] :=
  ⟨rfl, rfl, rfl⟩

end OnlineCS
